import Mathlib

/-!
# DynamicThreadPool: a resizable priority worker pool

Shallow embedding of `src/dynamic_thread_pool.h` and `src/dynamic_thread_pool.cpp`.

* The member variables of `DynamicThreadPool` become the fields of a structure.
* Every member function becomes a function on that structure.
* `std::multimap<unsigned int, std::function<void()>>` is a list of pairs kept in key order;
  `insert` puts the new pair behind every pair whose key is not greater (the C++11 rule for
  associative containers with equivalent keys), `begin()` is the head of the list and
  `erase(begin())` drops it.
* A task (`std::function<void()>`) is a value of an arbitrary type `τ`: the pool never looks
  inside a task, it only stores it and hands it to a worker.
* `unsigned int` is a natural number below `2 ^ 32`; the casts `(unsigned int)size()` and the
  unsigned subtraction in `SetThreadPoolSize` are written with an explicit `% 2 ^ 32`.
* The threads are modelled by an interleaving semantics: every thread in `m_threadContainer`
  carries its position inside `Work`, and `step` lets one thread at a time execute one atomic
  piece of code. The pieces are cut where another thread can interfere: the queue is only
  touched under `m_jobsContainerMutex`, the flag `m_poolActive` is atomic and is read and
  written without that mutex.
* In `step` a thread asleep in `m_condtionVar.wait` may test the condition of its loop again
  at any time, as `wait` is allowed to return without a notification; this gives every run of
  the code and is what the claims that hold in all reachable states are proved on. `stepW`
  adds the condition variable: who sleeps, and which notification wakes whom.
* The constructor, `SetThreadPoolSize` and the destructor are called by one controlling thread,
  one call after the other; `Push` may be called by any thread at any time.
* Creating a `std::thread` succeeds and a task that runs returns normally.
-/

namespace DTP

/-- Number of values of a 32-bit `unsigned int`. -/
def UINT_RANGE : Nat := 2 ^ 32

/-- The cast `(unsigned int)` applied to a `size_t`. -/
def toUnsigned (n : Nat) : Nat := n % UINT_RANGE

/-- Unsigned 32-bit subtraction `a - b` of two `unsigned int` values. -/
def usub (a b : Nat) : Nat := (a + UINT_RANGE - b) % UINT_RANGE

/-- An element of `m_jobsContainer`: `std::pair<unsigned int, std::function<void()>>`. -/
abbrev Job (τ : Type) := Nat × τ

/-- `std::multimap::insert`: the pair goes behind all pairs whose key is less than or equal to
its own key, in front of the first pair with a greater key. -/
def multimapInsert {τ : Type} (e : Job τ) : List (Job τ) → List (Job τ)
  | [] => [e]
  | x :: xs => if e.1 < x.1 then e :: x :: xs else x :: multimapInsert e xs

/-- Position of one thread inside `DynamicThreadPool::Work`.
* `idle`: at the head of the outer loop (line 38) or asleep in `m_condtionVar.wait` (line 40);
  the thread does not own `m_jobsContainerMutex`.
* `awake`: the wait loop of line 39 has been left, the thread owns `m_jobsContainerMutex` and
  is about to test `m_poolActive` at line 43.
* `running task`: the mutex is released and `task()` of line 52 is executing.
* `terminated`: `Work` has returned (line 44 or line 56). -/
inductive WorkerState (τ : Type) where
  | idle
  | awake
  | running (task : τ)
  | terminated
  deriving DecidableEq

/-- Is the thread inside the critical section between line 39 and line 50? -/
def WorkerState.isAwake {τ : Type} : WorkerState τ → Bool
  | .awake => true
  | _ => false

/-- Has the thread function returned? -/
def WorkerState.isTerminated {τ : Type} : WorkerState τ → Bool
  | .terminated => true
  | _ => false

/-- The member variables of `DynamicThreadPool`. `m_threadContainer` holds one entry per
`ScopedThread`, each with the position of its thread; the two mutexes and the condition variable
have no field of their own: `m_jobsContainerMutex` is owned exactly when some thread is `awake`,
every other critical section is a single atomic step. -/
structure DynamicThreadPool (τ : Type) where
  m_threadContainer : List (WorkerState τ)
  m_jobsContainer : List (Job τ)
  m_poolActive : Bool
  deriving DecidableEq

namespace DynamicThreadPool

variable {τ : Type}

/-- The state of the members before the constructor body runs: empty containers and
`m_poolActive{}` value-initialised to `false`. -/
def fresh : DynamicThreadPool τ :=
  { m_threadContainer := [], m_jobsContainer := [], m_poolActive := false }

/-- The loop of `StartThreads` (lines 30-32): `push_back` of one new thread per iteration; a new
thread starts at the head of `Work`. -/
def spawnLoop : Nat → List (WorkerState τ) → List (WorkerState τ)
  | 0, ts => ts
  | n + 1, ts => spawnLoop n (ts ++ [WorkerState.idle])

/-- `DynamicThreadPool::StartThreads` (lines 26-33). -/
def StartThreads (p : DynamicThreadPool τ) (threadsToStart : Nat) : DynamicThreadPool τ :=
  { p with
    m_poolActive := true
    m_threadContainer := spawnLoop threadsToStart p.m_threadContainer }

/-- Lines 89-90 of `StopThreads`: clear the flag (and wake every waiting thread). -/
def signalStop (p : DynamicThreadPool τ) : DynamicThreadPool τ :=
  { p with m_poolActive := false }

/-- Lines 91-92 of `StopThreads`: the registry after `m_threadContainer.clear()` has returned.
`clear()` joins every thread and so returns only when every thread has returned from `Work`;
in `step` this is the condition of the event `join`. -/
def clearThreads (p : DynamicThreadPool τ) : DynamicThreadPool τ :=
  { p with m_threadContainer := [] }

/-- `DynamicThreadPool::StopThreads` (lines 88-93): the members when the call has returned. -/
def StopThreads (p : DynamicThreadPool τ) : DynamicThreadPool τ :=
  clearThreads (signalStop p)

/-- `DynamicThreadPool::GetThreadCount` (lines 95-98). -/
def GetThreadCount (p : DynamicThreadPool τ) : Nat :=
  toUnsigned p.m_threadContainer.length

/-- `DynamicThreadPool::GetPendingJobsCount` (lines 100-103). -/
def GetPendingJobsCount (p : DynamicThreadPool τ) : Nat :=
  toUnsigned p.m_jobsContainer.length

/-- `DynamicThreadPool::Push` (lines 61-68). -/
def Push (p : DynamicThreadPool τ) (priority : Nat) (task : τ) : DynamicThreadPool τ :=
  { p with m_jobsContainer := multimapInsert (priority, task) p.m_jobsContainer }

/-- `DynamicThreadPool::SetThreadPoolSize` (lines 70-86): the members when the call has
returned, and the returned `bool`. -/
def SetThreadPoolSize (p : DynamicThreadPool τ) (newThreadCount : Nat) :
    DynamicThreadPool τ × Bool :=
  if newThreadCount = 0 then (p, false)
  else
    let currentThreadCount := GetThreadCount p
    if currentThreadCount < newThreadCount then
      (StartThreads p (usub newThreadCount currentThreadCount), true)
    else if currentThreadCount > newThreadCount then
      (StartThreads (StopThreads p) newThreadCount, true)
    else (p, true)

/-- Is `m_jobsContainerMutex` owned by a thread that is inside `Work`? -/
def jobsLocked (p : DynamicThreadPool τ) : Bool :=
  p.m_threadContainer.any WorkerState.isAwake

/-- Put thread `i` at a new position of `Work`. -/
def setWorker (p : DynamicThreadPool τ) (i : Nat) (w : WorkerState τ) : DynamicThreadPool τ :=
  { p with m_threadContainer := p.m_threadContainer.set i w }

/-- One atomic piece of `DynamicThreadPool::Work` (lines 35-59) executed by thread `i`.
The result is the new pool and the job taken from the queue, if this piece took one;
`none` means that the thread cannot move (it has returned, it waits for the mutex) or that the
code has no defined behaviour (`begin()` of an empty map is dereferenced).
* `idle`: lock the mutex and evaluate the condition of line 39; if it holds the thread sleeps
  in `wait` (the mutex is released again), otherwise it goes on with the mutex.
* `awake`: line 43 reads the flag; `false` returns, `true` takes `begin()` and unlocks
  (lines 48-50). The read and the removal are one piece: the thread owns the mutex, so no
  other thread touches the queue in between, and a store to the flag in between has the same
  effect as the same store right after the removal.
* `running`: `task()` returns and line 55 reads the flag. -/
def Work (p : DynamicThreadPool τ) (i : Nat) : Option (DynamicThreadPool τ × Option (Job τ)) :=
  match p.m_threadContainer[i]? with
  | none => none
  | some WorkerState.idle =>
      if p.jobsLocked then none
      else if p.m_poolActive && p.m_jobsContainer.isEmpty then some (p, none)
      else some (p.setWorker i WorkerState.awake, none)
  | some WorkerState.awake =>
      if !p.m_poolActive then some (p.setWorker i WorkerState.terminated, none)
      else
        match p.m_jobsContainer with
        | [] => none
        | e :: rest =>
            some ({ p with
                    m_jobsContainer := rest
                    m_threadContainer := p.m_threadContainer.set i (WorkerState.running e.2) },
                  some e)
  | some (WorkerState.running _) =>
      if !p.m_poolActive then some (p.setWorker i WorkerState.terminated, none)
      else some (p.setWorker i WorkerState.idle, none)
  | some WorkerState.terminated => none

/-- Result of the constructor: the exception it throws. -/
inductive Exn where
  | invalid_argument (what : String)
  deriving DecidableEq

/-- `DynamicThreadPool::DynamicThreadPool` (lines 14-22): the state of the members when the
constructor body is left, and whether it was left by the `throw`. -/
def ctor (threadCount : Nat) : DynamicThreadPool τ × Except Exn Unit :=
  if threadCount = 0 then
    (fresh, Except.error (Exn.invalid_argument "Thread count can not be 0"))
  else
    (StartThreads fresh threadCount, Except.ok ())

/-- Number of threads of the registry whose thread function has not returned. -/
def aliveCount (p : DynamicThreadPool τ) : Nat :=
  p.m_threadContainer.countP (fun w => !w.isTerminated)

end DynamicThreadPool

open DynamicThreadPool

/-- Where the controlling thread is.
* `ready`: the pool is constructed and no member function of the controller is running.
* `stopping restart`: inside `StopThreads`, after line 90 and before `clear()` has joined the
  threads; `restart = some n` when `SetThreadPoolSize` will call `StartThreads(n)` next,
  `none` when the caller is the destructor.
* `destroyed`: the body of the destructor has returned. -/
inductive Ctl where
  | ready
  | stopping (restart : Option Nat)
  | destroyed
  deriving DecidableEq

/-- A pool together with the position of its controlling thread and two history variables:
`pushed` lists the arguments of all `Push` calls in the order of their critical sections,
`claimed` lists every job taken in `Work` with the index of the thread that took it. -/
structure Sys (τ : Type) where
  pool : DynamicThreadPool τ
  ctl : Ctl
  pushed : List (Job τ)
  claimed : List (Nat × Job τ)
  deriving DecidableEq

/-- What can happen next. -/
inductive Event (τ : Type) where
  | push (priority : Nat) (task : τ)
  | work (i : Nat)
  | resize (newThreadCount : Nat)
  | destroy
  | join
  deriving DecidableEq

variable {τ : Type}

/-- One event of the interleaving semantics; `none` when the event cannot happen in `s`.
* `push`: the critical section of `Push`, for any calling thread.
* `work i`: thread `i` executes its next piece of `Work`.
* `resize n`: the controller calls `SetThreadPoolSize(n)`; growing is done at once, shrinking
  stores the flag and then waits in `clear()`.
* `destroy`: the destructor starts `StopThreads`.
* `join`: `clear()` returns, which needs every thread of the registry to have returned; after
  a shrink `StartThreads` follows. -/
def step (s : Sys τ) : Event τ → Option (Sys τ)
  | Event.push priority task =>
      match s.ctl with
      | Ctl.destroyed => none
      | _ =>
        if s.pool.jobsLocked then none
        else some { s with
                    pool := s.pool.Push priority task
                    pushed := s.pushed ++ [(priority, task)] }
  | Event.work i =>
      match s.ctl with
      | Ctl.destroyed => none
      | _ =>
        match s.pool.Work i with
        | none => none
        | some (p, none) => some { s with pool := p }
        | some (p, some e) => some { s with pool := p, claimed := s.claimed ++ [(i, e)] }
  | Event.resize newThreadCount =>
      match s.ctl with
      | Ctl.ready =>
        if UINT_RANGE ≤ newThreadCount then none
        else if newThreadCount = 0 then some s
        else
          let currentThreadCount := s.pool.GetThreadCount
          if currentThreadCount < newThreadCount then
            some { s with pool := s.pool.StartThreads (usub newThreadCount currentThreadCount) }
          else if currentThreadCount > newThreadCount then
            some { s with pool := s.pool.signalStop, ctl := Ctl.stopping (some newThreadCount) }
          else some s
      | _ => none
  | Event.destroy =>
      match s.ctl with
      | Ctl.ready => some { s with pool := s.pool.signalStop, ctl := Ctl.stopping none }
      | _ => none
  | Event.join =>
      match s.ctl with
      | Ctl.stopping restart =>
        if s.pool.m_threadContainer.all WorkerState.isTerminated then
          match restart with
          | some n => some { s with pool := s.pool.clearThreads.StartThreads n, ctl := Ctl.ready }
          | none => some { s with pool := s.pool.clearThreads, ctl := Ctl.destroyed }
        else none
      | _ => none

/-- A sequence of events, one after the other. -/
def run (s : Sys τ) : List (Event τ) → Option (Sys τ)
  | [] => some s
  | e :: es =>
      match step s e with
      | none => none
      | some s' => run s' es

/-- The system right after the constructor has returned normally. -/
def boot (threadCount : Nat) : Option (Sys τ) :=
  if UINT_RANGE ≤ threadCount then none
  else
    match ctor threadCount with
    | (p, Except.ok _) => some { pool := p, ctl := Ctl.ready, pushed := [], claimed := [] }
    | (_, Except.error _) => none

/-- Construct a pool with `threadCount` threads and let the events happen. -/
def exec (threadCount : Nat) (events : List (Event τ)) : Option (Sys τ) :=
  match boot threadCount with
  | none => none
  | some s => run s events

/-- The priorities of a list of jobs. -/
def priorities (js : List (Job τ)) : List Nat := js.map Prod.fst

/-- The jobs of a list that have priority `p`, in the order of the list. -/
def withPriority (p : Nat) (js : List (Job τ)) : List (Job τ) :=
  js.filter (fun e => decide (e.1 = p))

/-- The jobs of the history variable `claimed`, in the order in which they were taken. -/
def claimedJobs (s : Sys τ) : List (Job τ) := s.claimed.map Prod.snd

/-- The events of one thread that takes and runs `k` jobs: leave the wait loop, take the job,
run it. -/
def drainEvents (i : Nat) : Nat → List (Event τ)
  | 0 => []
  | k + 1 => Event.work i :: Event.work i :: Event.work i :: drainEvents i k

/-- The events of a list of `Push` calls. -/
def pushEvents (js : List (Job τ)) : List (Event τ) :=
  js.map (fun e => Event.push e.1 e.2)

/-- A list of `Push` calls on a pool, with no other step in between. -/
def DynamicThreadPool.pushAll (p : DynamicThreadPool τ) (js : List (Job τ)) :
    DynamicThreadPool τ :=
  js.foldl (fun q e => q.Push e.1 e.2) p

/-- Is thread `i` of the registry at the head of the loop of `Work`? -/
def DynamicThreadPool.idleAt (p : DynamicThreadPool τ) (i : Nat) : Bool :=
  match p.m_threadContainer[i]? with
  | some WorkerState.idle => true
  | _ => false

/-- The system with the condition variable `m_condtionVar`. The position `idle` of a thread is
split in three:
* the thread is at line 38, or has been woken and has to lock the mutex and evaluate the
  condition of line 39 (again): it is in neither `tested` nor `asleep`;
* `tested = some i`: thread `i` owns `m_jobsContainerMutex`, has evaluated the condition of
  line 39 as `true` and is about to call `wait` (line 40);
* `i` in `asleep`: thread `i` is blocked inside `wait`, the mutex released.
`notifying` counts the `Push` calls that have left their critical section (line 64) and have
not yet called `notify_one` (line 67). Every run of `stepW` is a run of the code. -/
structure WaitSys (τ : Type) where
  sys : Sys τ
  tested : Option Nat
  asleep : List Nat
  notifying : Nat
  deriving DecidableEq

/-- What can happen next in the system with the condition variable.
* `base e`: an event of `Event`.
* `notifyOne target`: a `Push` call reaches `notify_one` (line 67); `target` is the sleeping
  thread that is woken, `none` when no thread sleeps.
* `wakeup i`: `wait` of thread `i` returns without a notification. -/
inductive WaitEvent (τ : Type) where
  | base (e : Event τ)
  | notifyOne (target : Option Nat)
  | wakeup (i : Nat)
  deriving DecidableEq

/-- One event of the system with the condition variable; `none` when it cannot happen.
* `base (work i)`: a thread that has tested line 39 as `true` calls `wait`: it releases the
  mutex and sleeps. A sleeping thread cannot move. A thread at the head of the loop needs the
  mutex; if the condition of line 39 holds it becomes the `tested` thread, otherwise it leaves
  the loop as in `Work`. A thread at another position moves as in `Work`.
* `base (push ..)`: the critical section of `Push` needs the mutex; `notify_one` comes later.
* `base (resize n)`, `base destroy`: as in `step`; `StopThreads` stores `false` to the flag
  (line 89) and calls `notify_all` (line 90), which wakes the threads that sleep at that
  moment; the two lines are one event. Neither line locks `m_jobsContainerMutex`, so they can
  run while a thread is `tested`.
* `base join`: as in `step`.
* `notifyOne`, `wakeup`: a sleeping thread is woken and has to lock the mutex and evaluate
  line 39 again. -/
def stepW (w : WaitSys τ) : WaitEvent τ → Option (WaitSys τ)
  | WaitEvent.base (Event.work i) =>
      if w.tested == some i then
        some { w with tested := none, asleep := i :: w.asleep }
      else if w.asleep.contains i then none
      else
        match step w.sys (Event.work i) with
        | none => none
        | some s =>
          if w.sys.pool.idleAt i then
            if w.tested.isSome then none
            else if w.sys.pool.m_poolActive && w.sys.pool.m_jobsContainer.isEmpty then
              some { w with tested := some i }
            else some { w with sys := s }
          else some { w with sys := s }
  | WaitEvent.base (Event.push priority task) =>
      if w.tested.isSome then none
      else
        match step w.sys (Event.push priority task) with
        | none => none
        | some s => some { w with sys := s, notifying := w.notifying + 1 }
  | WaitEvent.base (Event.resize newThreadCount) =>
      match step w.sys (Event.resize newThreadCount) with
      | none => none
      | some s =>
        match s.ctl with
        | Ctl.stopping _ => some { w with sys := s, asleep := [] }
        | _ => some { w with sys := s }
  | WaitEvent.base Event.destroy =>
      match step w.sys Event.destroy with
      | none => none
      | some s => some { w with sys := s, asleep := [] }
  | WaitEvent.base Event.join =>
      match step w.sys Event.join with
      | none => none
      | some s => some { w with sys := s }
  | WaitEvent.notifyOne target =>
      if w.notifying = 0 then none
      else
        match target with
        | some i =>
          if w.asleep.contains i then
            some { w with asleep := w.asleep.erase i, notifying := w.notifying - 1 }
          else none
        | none =>
          if w.asleep.isEmpty then some { w with notifying := w.notifying - 1 } else none
  | WaitEvent.wakeup i =>
      if w.asleep.contains i then some { w with asleep := w.asleep.erase i } else none

/-- A sequence of events of the system with the condition variable. -/
def runW (w : WaitSys τ) : List (WaitEvent τ) → Option (WaitSys τ)
  | [] => some w
  | e :: es =>
      match stepW w e with
      | none => none
      | some w' => runW w' es

/-- Construct a pool with `threadCount` threads, none of them asleep yet, and let the events
happen. -/
def execW (threadCount : Nat) (events : List (WaitEvent τ)) : Option (WaitSys τ) :=
  match boot threadCount with
  | none => none
  | some s => runW { sys := s, tested := none, asleep := [], notifying := 0 } events

/-- Is the event neither a `Push` call nor a return of `wait` without notification? -/
def WaitEvent.internal : WaitEvent τ → Bool
  | WaitEvent.base (Event.push _ _) => false
  | WaitEvent.wakeup _ => false
  | _ => true

/-- The state in which `SetThreadPoolSize(1)` on a pool of two threads is stuck: the flag is
`false`, the controller is inside `clear()`, thread 1 has returned, thread 0 sleeps in `wait`
and no `notify_one` is on its way. -/
def shrinkBlocked : WaitSys Nat :=
  { sys := { pool := { m_threadContainer := [WorkerState.idle, WorkerState.terminated],
                       m_jobsContainer := [], m_poolActive := false },
             ctl := Ctl.stopping (some 1), pushed := [], claimed := [] },
    tested := none, asleep := [0], notifying := 0 }

/-- The default argument of the constructor. -/
def kThreadCount : Nat := 5

/-- The queue is in key order. -/
def KeySorted (js : List (Job τ)) : Prop := js.Pairwise (fun a b => a.1 ≤ b.1)

/-- What holds in every state that the system can reach.
* `sorted`: the queue is in key order.
* `fifo`: for every priority, the jobs pushed with it are the ones already taken followed by
  the ones still queued, each in its own order.
* `perm`: the jobs pushed are the ones taken together with the ones queued.
* `ready_active`, `stopping_inactive`: the flag is `true` exactly while no stop is under way.
* `restart_bound`: the argument of a pending `StartThreads` is an `unsigned int`.
* `size_bound`: the size of the registry is an `unsigned int`.
* `one_awake`: at most one thread owns `m_jobsContainerMutex`.
* `awake_nonempty`: a thread that left the wait loop while the flag is `true` finds a job.
* `active_alive`: while the flag is `true` no thread of the registry has returned. -/
structure Inv (s : Sys τ) : Prop where
  sorted : KeySorted s.pool.m_jobsContainer
  fifo : ∀ p, withPriority p s.pushed =
    withPriority p (claimedJobs s) ++ withPriority p s.pool.m_jobsContainer
  perm : s.pushed.Perm (claimedJobs s ++ s.pool.m_jobsContainer)
  ready_active : s.ctl = Ctl.ready → s.pool.m_poolActive = true
  stopping_inactive : ∀ r, s.ctl = Ctl.stopping r → s.pool.m_poolActive = false
  restart_bound : ∀ n, s.ctl = Ctl.stopping (some n) → n < UINT_RANGE
  size_bound : s.pool.m_threadContainer.length < UINT_RANGE
  one_awake : s.pool.m_threadContainer.countP WorkerState.isAwake ≤ 1
  awake_nonempty : s.pool.jobsLocked = true → s.pool.m_poolActive = true →
    s.pool.m_jobsContainer ≠ []
  active_alive : s.pool.m_poolActive = true →
    s.pool.m_threadContainer.countP WorkerState.isTerminated = 0

/-! ## Lemmas on the containers -/

theorem spawnLoop_eq (n : Nat) (ts : List (WorkerState τ)) :
    spawnLoop n ts = ts ++ List.replicate n WorkerState.idle := by
  induction n generalizing ts with
  | zero => simp [spawnLoop]
  | succ n ih =>
    rw [spawnLoop, ih, List.replicate_succ, List.append_assoc]
    rfl

theorem multimapInsert_perm (e : Job τ) (l : List (Job τ)) :
    (multimapInsert e l).Perm (l ++ [e]) := by
  induction l with
  | nil => simp [multimapInsert]
  | cons x xs ih =>
    unfold multimapInsert
    split
    · exact (List.perm_append_singleton e (x :: xs)).symm
    · simpa using ih

theorem multimapInsert_length (e : Job τ) (l : List (Job τ)) :
    (multimapInsert e l).length = l.length + 1 := by
  simpa using (multimapInsert_perm e l).length_eq

theorem multimapInsert_mem {e x : Job τ} {l : List (Job τ)} :
    x ∈ multimapInsert e l ↔ x = e ∨ x ∈ l := by
  rw [(multimapInsert_perm e l).mem_iff]
  simp [or_comm]

theorem multimapInsert_sorted (e : Job τ) (l : List (Job τ)) (h : KeySorted l) :
    KeySorted (multimapInsert e l) := by
  induction l with
  | nil => simp [multimapInsert, KeySorted]
  | cons x xs ih =>
    unfold KeySorted at h ih ⊢
    rw [List.pairwise_cons] at h
    unfold multimapInsert
    split
    · rename_i hlt
      refine List.Pairwise.cons ?_ (List.Pairwise.cons h.1 h.2)
      intro y hy
      rcases List.mem_cons.mp hy with rfl | hy
      · exact Nat.le_of_lt hlt
      · exact Nat.le_trans (Nat.le_of_lt hlt) (h.1 y hy)
    · rename_i hge
      refine List.Pairwise.cons ?_ (ih h.2)
      intro y hy
      rcases multimapInsert_mem.mp hy with rfl | hy
      · exact Nat.le_of_not_lt hge
      · exact h.1 y hy

theorem withPriority_append (p : Nat) (a b : List (Job τ)) :
    withPriority p (a ++ b) = withPriority p a ++ withPriority p b := by
  simp [withPriority]

theorem withPriority_insert_other (p : Nat) (e : Job τ) (l : List (Job τ)) (h : e.1 ≠ p) :
    withPriority p (multimapInsert e l) = withPriority p l := by
  induction l with
  | nil => simp [multimapInsert, withPriority, h]
  | cons x xs ih =>
    unfold multimapInsert
    split
    · simp [withPriority, h]
    · simp only [withPriority, List.filter_cons] at ih ⊢
      rw [ih]

theorem withPriority_insert_same (e : Job τ) (l : List (Job τ)) (h : KeySorted l) :
    withPriority e.1 (multimapInsert e l) = withPriority e.1 l ++ [e] := by
  induction l with
  | nil => simp [multimapInsert, withPriority]
  | cons x xs ih =>
    unfold KeySorted at h ih
    rw [List.pairwise_cons] at h
    unfold multimapInsert
    split
    · rename_i hlt
      have hnone : withPriority e.1 (x :: xs) = [] := by
        unfold withPriority
        rw [List.filter_eq_nil_iff]
        intro y hy
        have hxy : x.1 ≤ y.1 := by
          rcases List.mem_cons.mp hy with rfl | hy
          · exact Nat.le_refl _
          · exact h.1 y hy
        simp
        omega
      have hcons : withPriority e.1 (e :: x :: xs) = e :: withPriority e.1 (x :: xs) := by
        simp [withPriority]
      rw [hcons, hnone]
      rfl
    · simp only [withPriority, List.filter_cons] at ih ⊢
      rw [ih h.2]
      split <;> simp

/-! ## Lemmas on `Work` -/

theorem countP_set_of_getElem {α : Type} (P : α → Bool) (l : List α) (i : Nat) (a b : α)
    (h : l[i]? = some a) :
    (l.set i b).countP P + (if P a then 1 else 0) = l.countP P + (if P b then 1 else 0) := by
  induction l generalizing i with
  | nil => simp at h
  | cons x xs ih =>
    cases i with
    | zero =>
      simp at h
      subst h
      simp [List.countP_cons]
      omega
    | succ i =>
      simp at h
      have := ih i h
      simp [List.countP_cons]
      omega

theorem Work_cases {p p' : DynamicThreadPool τ} {i : Nat} {c : Option (Job τ)}
    (h : p.Work i = some (p', c)) :
    (p.m_threadContainer[i]? = some WorkerState.idle ∧ p.jobsLocked = false ∧
        p.m_poolActive = true ∧ p.m_jobsContainer = [] ∧ p' = p ∧ c = none) ∨
    (p.m_threadContainer[i]? = some WorkerState.idle ∧ p.jobsLocked = false ∧
        (p.m_poolActive = true → p.m_jobsContainer ≠ []) ∧
        p' = p.setWorker i WorkerState.awake ∧ c = none) ∨
    (p.m_threadContainer[i]? = some WorkerState.awake ∧ p.m_poolActive = false ∧
        p' = p.setWorker i WorkerState.terminated ∧ c = none) ∨
    (p.m_threadContainer[i]? = some WorkerState.awake ∧ p.m_poolActive = true ∧
        ∃ e rest, p.m_jobsContainer = e :: rest ∧
          p' = { p with m_jobsContainer := rest
                        m_threadContainer := p.m_threadContainer.set i (WorkerState.running e.2) } ∧
          c = some e) ∨
    (∃ t, p.m_threadContainer[i]? = some (WorkerState.running t) ∧ p.m_poolActive = false ∧
        p' = p.setWorker i WorkerState.terminated ∧ c = none) ∨
    (∃ t, p.m_threadContainer[i]? = some (WorkerState.running t) ∧ p.m_poolActive = true ∧
        p' = p.setWorker i WorkerState.idle ∧ c = none) := by
  unfold Work at h
  split at h
  · simp at h
  · rename_i hw
    split at h
    · simp at h
    · rename_i hl
      split at h
      · rename_i hc
        simp at h hc hl
        left
        exact ⟨hw, hl, hc.1, hc.2, h.1.symm, h.2.symm⟩
      · rename_i hc
        simp at h hc hl
        right; left
        refine ⟨hw, hl, ?_, h.1.symm, h.2.symm⟩
        intro ha
        exact hc ha
  · rename_i hw
    split at h
    · rename_i ha
      simp at h ha
      right; right; left
      exact ⟨hw, ha, h.1.symm, h.2.symm⟩
    · rename_i ha
      simp at ha
      split at h
      · simp at h
      · rename_i e rest hj
        simp at h
        right; right; right; left
        exact ⟨hw, ha, e, rest, hj, h.1.symm, h.2.symm⟩
  · rename_i t hw
    split at h
    · rename_i ha
      simp at h ha
      right; right; right; right; left
      exact ⟨t, hw, ha, h.1.symm, h.2.symm⟩
    · rename_i ha
      simp at h ha
      right; right; right; right; right
      exact ⟨t, hw, ha, h.1.symm, h.2.symm⟩
  · simp at h

/-! ## The invariant -/

theorem jobsLocked_eq_false_iff (p : DynamicThreadPool τ) :
    p.jobsLocked = false ↔ p.m_threadContainer.countP WorkerState.isAwake = 0 := by
  unfold jobsLocked
  rw [List.any_eq_false, List.countP_eq_zero]

theorem multimapInsert_ne_nil (e : Job τ) (l : List (Job τ)) : multimapInsert e l ≠ [] := by
  intro h
  have hlen := multimapInsert_length e l
  simp [h] at hlen

theorem Inv_push {s s' : Sys τ} {priority : Nat} {task : τ} (hI : Inv s)
    (h : step s (Event.push priority task) = some s') : Inv s' := by
  have hs : s.ctl ≠ Ctl.destroyed ∧ s' = { s with
      pool := s.pool.Push priority task
      pushed := s.pushed ++ [(priority, task)] } := by
    simp only [step] at h
    split at h
    · simp at h
    · rename_i hc
      split at h
      · simp at h
      · simp only [Option.some.injEq] at h
        exact ⟨fun hd => hc hd, h.symm⟩
  obtain ⟨_, rfl⟩ := hs
  refine ⟨?_, ?_, ?_, hI.ready_active, hI.stopping_inactive, hI.restart_bound, hI.size_bound,
    hI.one_awake, ?_, hI.active_alive⟩
  · exact multimapInsert_sorted _ _ hI.sorted
  · intro p
    simp only [Push, claimedJobs]
    rw [withPriority_append, hI.fifo p]
    by_cases hp : priority = p
    · subst hp
      have := withPriority_insert_same (priority, task) s.pool.m_jobsContainer hI.sorted
      simp only at this
      rw [this]
      simp [withPriority, claimedJobs]
    · rw [withPriority_insert_other p (priority, task) _ hp]
      simp [withPriority, claimedJobs, hp]
  · simp only [Push, claimedJobs]
    have h1 := hI.perm
    have h2 := multimapInsert_perm (priority, task) s.pool.m_jobsContainer
    have h3 : (s.pushed ++ [(priority, task)]).Perm
        ((claimedJobs s ++ s.pool.m_jobsContainer) ++ [(priority, task)]) :=
      List.Perm.append_right _ h1
    refine h3.trans ?_
    rw [List.append_assoc]
    exact List.Perm.append_left _ h2.symm
  · intro _ _
    exact multimapInsert_ne_nil _ _

theorem step_work {s s' : Sys τ} {i : Nat} (h : step s (Event.work i) = some s') :
    s.ctl ≠ Ctl.destroyed ∧ ∃ p c, s.pool.Work i = some (p, c) ∧
      s' = { s with
             pool := p
             claimed := match c with
               | none => s.claimed
               | some e => s.claimed ++ [(i, e)] } := by
  simp only [step] at h
  split at h
  · simp at h
  · rename_i hc
    refine ⟨fun hd => hc hd, ?_⟩
    split at h
    · simp at h
    · rename_i p hw
      simp only [Option.some.injEq] at h
      exact ⟨p, none, hw, h.symm⟩
    · rename_i p e hw
      simp only [Option.some.injEq] at h
      exact ⟨p, some e, hw, h.symm⟩

theorem Inv_setWorker {s : Sys τ} {i : Nat} {w0 w : WorkerState τ} (hI : Inv s)
    (h0 : s.pool.m_threadContainer[i]? = some w0)
    (hawake : w.isAwake = true →
      s.pool.jobsLocked = false ∧ (s.pool.m_poolActive = true → s.pool.m_jobsContainer ≠ []))
    (hterm : w.isTerminated = true → s.pool.m_poolActive = false) :
    Inv { s with pool := s.pool.setWorker i w } := by
  have hA := countP_set_of_getElem WorkerState.isAwake _ i w0 w h0
  have hT := countP_set_of_getElem WorkerState.isTerminated _ i w0 w h0
  have h1 := hI.one_awake
  refine ⟨hI.sorted, hI.fifo, hI.perm, hI.ready_active, hI.stopping_inactive, hI.restart_bound,
    ?_, ?_, ?_, ?_⟩
  · simpa [setWorker] using hI.size_bound
  · simp only [setWorker]
    by_cases hw : w.isAwake = true
    · have := (jobsLocked_eq_false_iff _).mp (hawake hw).1
      simp only [hw, if_true] at hA
      split at hA <;> omega
    · simp only [hw] at hA
      split at hA <;> simp at hA <;> omega
  · intro hl ha
    simp only [setWorker] at hl ha ⊢
    by_cases hw : w.isAwake = true
    · exact (hawake hw).2 ha
    · apply hI.awake_nonempty _ ha
      by_contra hn
      have hn' : s.pool.jobsLocked = false := by simpa using hn
      have h0' := (jobsLocked_eq_false_iff _).mp hn'
      have : (s.pool.m_threadContainer.set i w).countP WorkerState.isAwake = 0 := by
        simp only [hw] at hA
        split at hA <;> simp at hA <;> omega
      have hf := (jobsLocked_eq_false_iff (s.pool.setWorker i w)).mpr this
      simp only [setWorker] at hf
      rw [jobsLocked] at hl hf
      simp only at hl hf
      rw [hl] at hf
      exact absurd hf (by simp)
  · intro ha
    simp only [setWorker] at ha ⊢
    have hz := hI.active_alive ha
    have hw : ¬ w.isTerminated = true := by
      intro hw
      have := hterm hw
      rw [ha] at this
      exact absurd this (by simp)
    simp only [hw] at hT
    split at hT <;> simp at hT <;> omega

theorem Inv_take {s : Sys τ} {i : Nat} {e : Job τ} {rest : List (Job τ)} (hI : Inv s)
    (hl : s.pool.jobsLocked = false) (hj : s.pool.m_jobsContainer = e :: rest) :
    Inv { s with
          pool := { s.pool with m_jobsContainer := rest }
          claimed := s.claimed ++ [(i, e)] } := by
  have hs := hI.sorted
  rw [hj, KeySorted, List.pairwise_cons] at hs
  refine ⟨hs.2, ?_, ?_, hI.ready_active, hI.stopping_inactive, hI.restart_bound, hI.size_bound,
    hI.one_awake, ?_, hI.active_alive⟩
  · intro p
    have := hI.fifo p
    rw [hj] at this
    rw [this]
    simp [claimedJobs, withPriority, List.filter_cons]
    split <;> simp
  · have := hI.perm
    rw [hj] at this
    simpa [claimedJobs] using this
  · intro hl'
    have : s.pool.jobsLocked = true := hl'
    rw [hl] at this
    exact absurd this (by simp)

theorem Inv_work {s s' : Sys τ} {i : Nat} (hI : Inv s)
    (h : step s (Event.work i) = some s') : Inv s' := by
  obtain ⟨_, p, c, hw, rfl⟩ := step_work h
  rcases Work_cases hw with ⟨_, _, _, _, rfl, rfl⟩ | ⟨h0, hl, hne, rfl, rfl⟩ |
    ⟨h0, ha, rfl, rfl⟩ | ⟨h0, ha, e, rest, hj, rfl, rfl⟩ | ⟨t, h0, ha, rfl, rfl⟩ |
    ⟨t, h0, ha, rfl, rfl⟩
  · exact hI
  · exact Inv_setWorker hI h0 (fun _ => ⟨hl, hne⟩) (fun hw => by simp [WorkerState.isTerminated] at hw)
  · exact Inv_setWorker hI h0 (fun hw => by simp [WorkerState.isAwake] at hw) (fun _ => ha)
  · have hI1 : Inv { s with pool := s.pool.setWorker i (WorkerState.running e.2) } :=
      Inv_setWorker hI h0 (fun hw => by simp [WorkerState.isAwake] at hw)
        (fun hw => by simp [WorkerState.isTerminated] at hw)
    have hA := countP_set_of_getElem WorkerState.isAwake _ i _ (WorkerState.running e.2) h0
    have h1 := hI.one_awake
    simp only [WorkerState.isAwake, if_true] at hA
    have hfree : (s.pool.setWorker i (WorkerState.running e.2)).jobsLocked = false := by
      rw [jobsLocked_eq_false_iff]
      simp only [setWorker]
      simp at hA
      omega
    exact Inv_take (i := i) hI1 hfree hj
  · exact Inv_setWorker hI h0 (fun hw => by simp [WorkerState.isAwake] at hw) (fun _ => ha)
  · exact Inv_setWorker hI h0 (fun hw => by simp [WorkerState.isAwake] at hw)
      (fun hw => by simp [WorkerState.isTerminated] at hw)

theorem toUnsigned_of_lt {n : Nat} (h : n < UINT_RANGE) : toUnsigned n = n :=
  Nat.mod_eq_of_lt h

theorem usub_of_le {a b : Nat} (hb : b ≤ a) (ha : a < UINT_RANGE) : usub a b = a - b := by
  unfold usub
  have : a + UINT_RANGE - b = (a - b) + UINT_RANGE := by omega
  rw [this, Nat.add_mod_right]
  exact Nat.mod_eq_of_lt (by omega)

theorem Inv_start {s : Sys τ} {n : Nat} (hI : Inv s) (ha : s.pool.m_poolActive = true)
    (hn : s.pool.m_threadContainer.length + n < UINT_RANGE) :
    Inv { s with pool := s.pool.StartThreads n } := by
  refine ⟨hI.sorted, hI.fifo, hI.perm, fun _ => rfl, ?_, hI.restart_bound, ?_, ?_, ?_, ?_⟩
  · intro r hr
    have := hI.stopping_inactive r hr
    rw [ha] at this
    exact absurd this (by simp)
  · simpa [StartThreads, spawnLoop_eq] using hn
  · have := hI.one_awake
    simpa [StartThreads, spawnLoop_eq, List.countP_replicate, WorkerState.isAwake] using this
  · intro hl _
    apply hI.awake_nonempty _ ha
    simpa [StartThreads, spawnLoop_eq, jobsLocked, List.any_replicate, WorkerState.isAwake]
      using hl
  · intro _
    have := hI.active_alive ha
    simpa [StartThreads, spawnLoop_eq, List.countP_replicate, WorkerState.isTerminated] using this

theorem Inv_signalStop {s : Sys τ} {r : Option Nat} (hI : Inv s)
    (hr : ∀ n, r = some n → n < UINT_RANGE) :
    Inv { s with pool := s.pool.signalStop, ctl := Ctl.stopping r } := by
  refine ⟨hI.sorted, hI.fifo, hI.perm, ?_, fun _ _ => rfl, ?_, hI.size_bound, hI.one_awake,
    ?_, ?_⟩
  · intro h
    simp at h
  · intro n hn
    simp only [Ctl.stopping.injEq] at hn
    exact hr n hn
  · intro _ h
    simp [signalStop] at h
  · intro h
    simp [signalStop] at h

theorem Inv_resize {s s' : Sys τ} {n : Nat} (hI : Inv s)
    (h : step s (Event.resize n) = some s') : Inv s' := by
  simp only [step] at h
  split at h
  · rename_i hc
    have hact := hI.ready_active hc
    have hlen := toUnsigned_of_lt hI.size_bound
    split at h
    · simp at h
    · rename_i hn
      split at h
      · simp only [Option.some.injEq] at h
        exact h ▸ hI
      · simp only [GetThreadCount, hlen] at h
        split at h
        · rename_i hlt
          simp only [Option.some.injEq] at h
          subst h
          apply Inv_start hI hact
          rw [usub_of_le (Nat.le_of_lt hlt) (by omega)]
          omega
        · split at h
          · simp only [Option.some.injEq] at h
            subst h
            apply Inv_signalStop hI
            intro m hm
            simp only [Option.some.injEq] at hm
            omega
          · simp only [Option.some.injEq] at h
            exact h ▸ hI
  · simp at h

theorem Inv_destroy {s s' : Sys τ} (hI : Inv s)
    (h : step s Event.destroy = some s') : Inv s' := by
  simp only [step] at h
  split at h
  · simp only [Option.some.injEq] at h
    subst h
    exact Inv_signalStop hI (fun n hn => by simp at hn)
  · simp at h

theorem Inv_join {s s' : Sys τ} (hI : Inv s)
    (h : step s Event.join = some s') : Inv s' := by
  simp only [step] at h
  split at h
  · rename_i restart hc
    split at h
    · split at h
      · rename_i m
        simp only [Option.some.injEq] at h
        subst h
        have hm := hI.restart_bound m hc
        refine ⟨hI.sorted, hI.fifo, hI.perm, fun _ => rfl, ?_, ?_, ?_, ?_, ?_, ?_⟩
        · intro r hr
          simp at hr
        · intro k hk
          simp at hk
        · simpa [StartThreads, clearThreads, spawnLoop_eq] using hm
        · simp [StartThreads, clearThreads, spawnLoop_eq, List.countP_replicate,
            WorkerState.isAwake]
        · intro hl
          simp [StartThreads, clearThreads, spawnLoop_eq, jobsLocked, List.any_replicate,
            WorkerState.isAwake] at hl
        · intro _
          simp [StartThreads, clearThreads, spawnLoop_eq, List.countP_replicate,
            WorkerState.isTerminated]
      · simp only [Option.some.injEq] at h
        subst h
        have hact := hI.stopping_inactive _ hc
        refine ⟨hI.sorted, hI.fifo, hI.perm, ?_, ?_, ?_, ?_, ?_, ?_, ?_⟩
        · intro hr
          simp at hr
        · intro r hr
          simp at hr
        · intro k hk
          simp at hk
        · simp [clearThreads, UINT_RANGE]
        · simp [clearThreads]
        · intro hl
          simp [clearThreads, jobsLocked] at hl
        · intro _
          simp [clearThreads]
    · simp at h
  · simp at h

theorem Inv_step {s s' : Sys τ} {e : Event τ} (hI : Inv s) (h : step s e = some s') :
    Inv s' := by
  cases e with
  | push priority task => exact Inv_push hI h
  | work i => exact Inv_work hI h
  | resize n => exact Inv_resize hI h
  | destroy => exact Inv_destroy hI h
  | join => exact Inv_join hI h

theorem Inv_run {s s' : Sys τ} {es : List (Event τ)} (hI : Inv s) (h : run s es = some s') :
    Inv s' := by
  induction es generalizing s with
  | nil =>
    simp only [run, Option.some.injEq] at h
    exact h ▸ hI
  | cons e es ih =>
    simp only [run] at h
    split at h
    · simp at h
    · rename_i s1 hs1
      exact ih (Inv_step hI hs1) h

theorem boot_eq {n : Nat} {s : Sys τ} (h : boot n = some s) :
    0 < n ∧ n < UINT_RANGE ∧
      s = { pool := fresh.StartThreads n, ctl := Ctl.ready, pushed := [], claimed := [] } := by
  unfold boot at h
  split at h
  · simp at h
  · rename_i hn
    unfold ctor at h
    split at h
    · rename_i p _ heq
      split at heq
      · simp at heq
      · rename_i h0
        simp only [Prod.mk.injEq] at heq
        simp only [Option.some.injEq] at h
        refine ⟨Nat.pos_of_ne_zero h0, by omega, ?_⟩
        rw [← h, ← heq.1]
    · rename_i heq
      simp at h

theorem Inv_boot {n : Nat} {s : Sys τ} (h : boot n = some s) : Inv s := by
  obtain ⟨_, hn, rfl⟩ := boot_eq h
  refine ⟨?_, ?_, ?_, fun _ => rfl, ?_, ?_, ?_, ?_, ?_, ?_⟩
  · simp [StartThreads, fresh, KeySorted]
  · intro p
    simp [StartThreads, fresh, claimedJobs, withPriority]
  · simp [StartThreads, fresh, claimedJobs]
  · intro r hr
    simp at hr
  · intro k hk
    simp at hk
  · simpa [StartThreads, fresh, spawnLoop_eq] using hn
  · simp [StartThreads, fresh, spawnLoop_eq, List.countP_replicate, WorkerState.isAwake]
  · intro hl
    simp [StartThreads, fresh, spawnLoop_eq, jobsLocked, List.any_replicate,
      WorkerState.isAwake] at hl
  · intro _
    simp [StartThreads, fresh, spawnLoop_eq, List.countP_replicate, WorkerState.isTerminated]

theorem exec_eq {n : Nat} {es : List (Event τ)} {s : Sys τ} (h : exec n es = some s) :
    ∃ s0, boot n = some s0 ∧ run s0 es = some s := by
  unfold exec at h
  split at h
  · simp at h
  · rename_i s0 h0
    exact ⟨s0, h0, h⟩

theorem Inv_exec {n : Nat} {es : List (Event τ)} {s : Sys τ} (h : exec n es = some s) :
    Inv s := by
  obtain ⟨s0, h0, hr⟩ := exec_eq h
  exact Inv_run (Inv_boot h0) hr

/-! ## Runs of one worker -/

theorem run_append (s : Sys τ) (a b : List (Event τ)) :
    run s (a ++ b) = (run s a).bind (fun s' => run s' b) := by
  induction a generalizing s with
  | nil => simp [run]
  | cons e es ih =>
    simp only [List.cons_append, run]
    split
    · simp
    · exact ih _

/-- The queue after a list of `Push` calls. -/
theorem run_pushEvents (js : List (Job τ)) (s : Sys τ) (hc : s.ctl = Ctl.ready)
    (hl : s.pool.jobsLocked = false) :
    run s (pushEvents js) = some { s with
      pool := { s.pool with
                m_jobsContainer := js.foldl (fun q e => multimapInsert e q) s.pool.m_jobsContainer }
      pushed := s.pushed ++ js } := by
  obtain ⟨pool, ctl, pushed, claimed⟩ := s
  simp only at hc hl
  subst hc
  induction js generalizing pool pushed with
  | nil => simp [pushEvents, run]
  | cons e es ih =>
    simp only [pushEvents, List.map_cons, run, step, hl]
    simp only [Bool.false_eq_true, if_false]
    have := ih (pool.Push e.1 e.2) (pushed ++ [(e.1, e.2)]) hl
    simp only [pushEvents] at this
    rw [this]
    simp [Push]

theorem foldl_insert_sorted (js q : List (Job τ)) (h : KeySorted q) :
    KeySorted (js.foldl (fun q e => multimapInsert e q) q) := by
  induction js generalizing q with
  | nil => exact h
  | cons e es ih => exact ih _ (multimapInsert_sorted e q h)

theorem foldl_insert_perm (js q : List (Job τ)) :
    (js.foldl (fun q e => multimapInsert e q) q).Perm (q ++ js) := by
  induction js generalizing q with
  | nil => simp
  | cons e es ih =>
    refine (ih _).trans ?_
    have := multimapInsert_perm e q
    simpa using List.Perm.append_right es this

/-- One thread, alone in the registry, takes and runs every queued job in queue order. -/
theorem run_drain (J : List (Job τ)) (pushed : List (Job τ)) (claimed : List (Nat × Job τ)) :
    run { pool := { m_threadContainer := [WorkerState.idle], m_jobsContainer := J,
                    m_poolActive := true },
          ctl := Ctl.ready, pushed := pushed, claimed := claimed }
        (drainEvents 0 J.length) =
      some { pool := { m_threadContainer := [WorkerState.idle], m_jobsContainer := [],
                       m_poolActive := true },
             ctl := Ctl.ready, pushed := pushed,
             claimed := claimed ++ J.map (fun e => (0, e)) } := by
  induction J generalizing claimed with
  | nil => simp [drainEvents, run]
  | cons e rest ih =>
    simp only [List.length_cons, drainEvents, run, step, Work, jobsLocked, setWorker]
    simp [WorkerState.isAwake]
    rw [ih]
    simp

theorem boot_one : (boot 1 : Option (Sys τ)) =
    some { pool := { m_threadContainer := [WorkerState.idle], m_jobsContainer := [],
                     m_poolActive := true },
           ctl := Ctl.ready, pushed := [], claimed := [] } := by
  simp [boot, ctor, StartThreads, fresh, spawnLoop, UINT_RANGE]

/-- A pool with one thread: all `Push` calls first, then the thread takes and runs the jobs. -/
theorem exec_push_drain (js : List (Job τ)) :
    exec 1 (pushEvents js ++ drainEvents 0 js.length) =
      some { pool := { m_threadContainer := [WorkerState.idle], m_jobsContainer := [],
                       m_poolActive := true },
             ctl := Ctl.ready, pushed := js,
             claimed := (js.foldl (fun q e => multimapInsert e q) []).map (fun e => (0, e)) } := by
  unfold exec
  rw [boot_one]
  simp only
  rw [run_append, run_pushEvents js _ rfl (by simp [jobsLocked, WorkerState.isAwake])]
  simp only [Option.some_bind, List.nil_append]
  have hlen : js.length = (js.foldl (fun q e => multimapInsert e q) []).length := by
    simpa using (foldl_insert_perm js []).length_eq.symm
  rw [hlen, run_drain]
  simp

/-! ## The claims -/

/-- C1: in every reachable state the job a worker takes in `Work` has the lowest priority value
of all queued jobs; and for every list of `Push` calls made before any job is taken, one worker
that drains the queue takes all of them, in non-decreasing order of priority (the priorities
5, 1, 3 are run in the order 1, 3, 5). -/
theorem C1_lowest_priority_first :
    (∀ (n : Nat) (es : List (Event τ)) (s : Sys τ) (i : Nat) (p' : DynamicThreadPool τ)
        (e : Job τ), exec n es = some s → s.pool.Work i = some (p', some e) →
        e ∈ s.pool.m_jobsContainer ∧ ∀ x ∈ s.pool.m_jobsContainer, e.1 ≤ x.1) ∧
    (∀ js : List (Job τ), ∃ s, exec 1 (pushEvents js ++ drainEvents 0 js.length) = some s ∧
        s.pool.m_jobsContainer = [] ∧ (claimedJobs s).Perm js ∧
        (priorities (claimedJobs s)).Sorted (fun a b => a ≤ b)) ∧
    (∀ a b c : τ, (exec 1 (pushEvents [(5, a), (1, b), (3, c)] ++ drainEvents 0 3)).map
        claimedJobs = some [(1, b), (3, c), (5, a)]) := by
  refine ⟨?_, ?_, ?_⟩
  · intro n es s i p' e hex hw
    have hI := Inv_exec hex
    rcases Work_cases hw with ⟨_, _, _, _, _, hc⟩ | ⟨_, _, _, _, hc⟩ | ⟨_, _, _, hc⟩ |
      ⟨_, _, e', rest, hj, _, hc⟩ | ⟨_, _, _, _, hc⟩ | ⟨_, _, _, _, hc⟩
    · simp at hc
    · simp at hc
    · simp at hc
    · simp only [Option.some.injEq] at hc
      subst hc
      have hs := hI.sorted
      rw [hj, KeySorted, List.pairwise_cons] at hs
      rw [hj]
      refine ⟨List.mem_cons_self _ _, ?_⟩
      intro x hx
      rcases List.mem_cons.mp hx with rfl | hx
      · exact Nat.le_refl _
      · exact hs.1 x hx
    · simp at hc
    · simp at hc
  · intro js
    refine ⟨_, exec_push_drain js, rfl, ?_, ?_⟩
    · simpa [claimedJobs, Function.comp_def] using foldl_insert_perm js []
    · have := foldl_insert_sorted js [] (by simp [KeySorted])
      simp only [claimedJobs, priorities, List.map_map, Function.comp_def, List.map_id']
      exact List.Pairwise.map _ (fun _ _ h => h) this
  · intro a b c
    rfl

/-- C1 at a pool with one thread and the pushes 5, 1, 3: the first job taken is the one with
priority 1, and the whole run is 1, 3, 5. -/
theorem C1_lowest_priority_first_witness :
    exec 1 [Event.push 5 50, Event.push 1 10, Event.push 3 30, Event.work 0] =
      some { pool := { m_threadContainer := [WorkerState.awake],
                       m_jobsContainer := [(1, 10), (3, 30), (5, 50)], m_poolActive := true },
             ctl := Ctl.ready, pushed := [(5, 50), (1, 10), (3, 30)], claimed := [] } ∧
    ((1, 10) ∈ [(1, 10), (3, 30), (5, 50)] ∧
      ∀ x ∈ [((1 : Nat), (10 : Nat)), (3, 30), (5, 50)], 1 ≤ x.1) ∧
    (exec 1 (pushEvents [(5, 50), (1, 10), (3, 30)] ++ drainEvents 0 3)).map claimedJobs =
      some [(1, 10), (3, 30), (5, 50)] :=
  ⟨rfl,
   C1_lowest_priority_first.1 1
     [Event.push 5 50, Event.push 1 10, Event.push 3 30, Event.work 0] _ 0
     { m_threadContainer := [WorkerState.running 10], m_jobsContainer := [(3, 30), (5, 50)],
       m_poolActive := true } (1, 10) rfl rfl,
   C1_lowest_priority_first.2.2 50 10 30⟩

/-- C2: for every priority `p` and every reachable state (any interleaving of `Push` calls,
worker steps and controller operations), the jobs pushed with priority `p` are, in push order,
the jobs of priority `p` already taken in `Work` (in the order they were taken) followed by the
ones still queued. Hence if `A` is the `i`-th and `B` the `j`-th job pushed with priority `p`,
`i < j`, and `B` has been taken, then `A` was taken before `B`: `A` is the `i`-th and `B` the
`j`-th job of priority `p` in the order of removal. -/
theorem C2_fifo_among_equal_priority (n : Nat) (es : List (Event τ)) (s : Sys τ)
    (h : exec n es = some s) (p : Nat) :
    withPriority p s.pushed =
      withPriority p (claimedJobs s) ++ withPriority p s.pool.m_jobsContainer ∧
    ∀ (i j : Nat) (A B : Job τ), i < j →
      (withPriority p s.pushed)[i]? = some A → (withPriority p s.pushed)[j]? = some B →
      j < (withPriority p (claimedJobs s)).length →
      (withPriority p (claimedJobs s))[i]? = some A ∧
        (withPriority p (claimedJobs s))[j]? = some B := by
  have hf := (Inv_exec h).fifo p
  refine ⟨hf, ?_⟩
  intro i j A B hij hA hB hj
  rw [hf] at hA hB
  rw [List.getElem?_append_left (by omega)] at hA
  rw [List.getElem?_append_left hj] at hB
  exact ⟨hA, hB⟩

/-- C2 on a run of one thread: `A = (7, 100)` and `B = (7, 200)` are pushed in this order, a job
of priority 2 is pushed after them; the thread takes the job of priority 2, then `A`, then
`B`. -/
theorem C2_fifo_among_equal_priority_witness :
    exec 1 (pushEvents [(7, 100), (7, 200), (2, 300)] ++ drainEvents 0 3) =
      some { pool := { m_threadContainer := [WorkerState.idle], m_jobsContainer := [],
                       m_poolActive := true },
             ctl := Ctl.ready, pushed := [(7, 100), (7, 200), (2, 300)],
             claimed := [(0, (2, 300)), (0, (7, 100)), (0, (7, 200))] } ∧
    (withPriority 7 [((7 : Nat), (100 : Nat)), (7, 200), (2, 300)])[0]? = some (7, 100) ∧
    (withPriority 7 [((7 : Nat), (100 : Nat)), (7, 200), (2, 300)])[1]? = some (7, 200) ∧
    (withPriority 7 [((2 : Nat), (300 : Nat)), (7, 100), (7, 200)])[0]? = some (7, 100) ∧
    (withPriority 7 [((2 : Nat), (300 : Nat)), (7, 100), (7, 200)])[1]? = some (7, 200) :=
  ⟨rfl, rfl, rfl,
   (C2_fifo_among_equal_priority 1
      (pushEvents [(7, 100), (7, 200), (2, 300)] ++ drainEvents 0 3)
      { pool := { m_threadContainer := [WorkerState.idle], m_jobsContainer := [],
                  m_poolActive := true },
        ctl := Ctl.ready, pushed := [(7, 100), (7, 200), (2, 300)],
        claimed := [(0, (2, 300)), (0, (7, 100)), (0, (7, 200))] }
      (by rfl) 7).2 0 1 (7, 100) (7, 200) (by decide) (by rfl) (by rfl) (by decide)⟩

theorem toUnsigned_add_usub (len n : Nat) (hn : n < UINT_RANGE) :
    toUnsigned (len + usub n (toUnsigned len)) = n := by
  unfold toUnsigned usub UINT_RANGE at *
  omega

/-- The result and the members that `SetThreadPoolSize(newCount)` leaves behind when the call
returns, for `0 < newCount` (an `unsigned int`): the result is `true` and `GetThreadCount()` is
`newCount`. When `newCount` is greater than the current count the unsigned subtraction does not
wrap and exactly `newCount - current` threads are added behind the existing ones; when it is
smaller the registry holds `newCount` new threads; when it is equal nothing changes. Whether
the call returns is not decided here: `clear()` blocks until every thread has returned. -/
theorem SetThreadPoolSize_post (p : DynamicThreadPool τ) (newCount : Nat)
    (hpos : 0 < newCount) (hmax : newCount < UINT_RANGE) :
    (p.SetThreadPoolSize newCount).2 = true ∧
    (p.SetThreadPoolSize newCount).1.GetThreadCount = newCount ∧
    (p.GetThreadCount < newCount →
      usub newCount p.GetThreadCount = newCount - p.GetThreadCount ∧
      (p.SetThreadPoolSize newCount).1.m_threadContainer =
        p.m_threadContainer ++
          List.replicate (newCount - p.GetThreadCount) WorkerState.idle) ∧
    (newCount < p.GetThreadCount →
      (p.SetThreadPoolSize newCount).1.m_threadContainer =
        List.replicate newCount WorkerState.idle) ∧
    (newCount = p.GetThreadCount → (p.SetThreadPoolSize newCount).1 = p) := by
  have h0 : newCount ≠ 0 := by omega
  unfold SetThreadPoolSize
  simp only [h0, if_false]
  by_cases hlt : p.GetThreadCount < newCount
  · simp only [hlt, if_true]
    have hsub := usub_of_le (Nat.le_of_lt hlt) hmax
    refine ⟨trivial, ?_, fun _ => ⟨hsub, ?_⟩, fun h => by omega, fun h => by omega⟩
    · simp only [GetThreadCount, StartThreads, spawnLoop_eq, List.length_append,
        List.length_replicate]
      exact toUnsigned_add_usub _ _ hmax
    · simp only [StartThreads, spawnLoop_eq, hsub]
  · simp only [hlt, if_false]
    by_cases hgt : p.GetThreadCount > newCount
    · simp only [hgt, if_true]
      refine ⟨trivial, ?_, fun h => h.elim, fun _ => ?_, fun h => by omega⟩
      · simp only [GetThreadCount, StartThreads, StopThreads, clearThreads, signalStop,
          spawnLoop_eq, List.nil_append, List.length_replicate]
        exact toUnsigned_of_lt hmax
      · simp only [StartThreads, StopThreads, clearThreads, signalStop, spawnLoop_eq,
          List.nil_append]
    · simp only [hgt, if_false]
      refine ⟨trivial, by omega, fun h => h.elim, fun h => h.elim, fun _ => trivial⟩

/-- Every event of the system with the condition variable either leaves the members and the
history as they are, or is an event of `step` on them. -/
theorem stepW_refines {w w' : WaitSys τ} {e : WaitEvent τ} (h : stepW w e = some w') :
    w'.sys = w.sys ∨ ∃ b, e = WaitEvent.base b ∧ step w.sys b = some w'.sys := by
  cases e with
  | base b =>
    cases b with
    | push priority task =>
      simp only [stepW] at h
      split at h
      · simp at h
      · split at h
        · simp at h
        · rename_i s hs
          simp only [Option.some.injEq] at h
          subst h
          exact Or.inr ⟨_, rfl, hs⟩
    | work i =>
      simp only [stepW] at h
      split at h
      · simp only [Option.some.injEq] at h
        subst h
        exact Or.inl rfl
      · split at h
        · simp at h
        · split at h
          · simp at h
          · rename_i s hs
            split at h
            · split at h
              · simp at h
              · split at h
                · simp only [Option.some.injEq] at h
                  subst h
                  exact Or.inl rfl
                · simp only [Option.some.injEq] at h
                  subst h
                  exact Or.inr ⟨_, rfl, hs⟩
            · simp only [Option.some.injEq] at h
              subst h
              exact Or.inr ⟨_, rfl, hs⟩
    | resize n =>
      simp only [stepW] at h
      split at h
      · simp at h
      · rename_i s hs
        split at h <;>
        · simp only [Option.some.injEq] at h
          subst h
          exact Or.inr ⟨_, rfl, hs⟩
    | destroy =>
      simp only [stepW] at h
      split at h
      · simp at h
      · rename_i s hs
        simp only [Option.some.injEq] at h
        subst h
        exact Or.inr ⟨_, rfl, hs⟩
    | join =>
      simp only [stepW] at h
      split at h
      · simp at h
      · rename_i s hs
        simp only [Option.some.injEq] at h
        subst h
        exact Or.inr ⟨_, rfl, hs⟩
  | notifyOne target =>
    left
    simp only [stepW] at h
    split at h
    · simp at h
    · split at h <;> split at h <;> first
        | (simp only [Option.some.injEq] at h; subst h; rfl)
        | simp at h
  | wakeup i =>
    left
    simp only [stepW] at h
    split at h
    · simp only [Option.some.injEq] at h
      subst h
      rfl
    · simp at h

/-- Every state that the system with the condition variable reaches is a state that `step`
reaches, so what holds in all reachable states of `step` holds in it too. -/
theorem execW_refines {n : Nat} {es : List (WaitEvent τ)} {w : WaitSys τ}
    (h : execW n es = some w) : ∃ bs, exec n bs = some w.sys := by
  have hrun : ∀ (es : List (WaitEvent τ)) (w0 w1 : WaitSys τ), runW w0 es = some w1 →
      ∃ bs, run w0.sys bs = some w1.sys := by
    intro es
    induction es with
    | nil =>
      intro w0 w1 h
      simp only [runW, Option.some.injEq] at h
      exact ⟨[], by simp [run, h]⟩
    | cons e es ih =>
      intro w0 w1 h
      simp only [runW] at h
      split at h
      · simp at h
      · rename_i w2 hs
        obtain ⟨bs, hbs⟩ := ih w2 w1 h
        rcases stepW_refines hs with heq | ⟨b, _, hb⟩
        · exact ⟨bs, by rw [← heq]; exact hbs⟩
        · exact ⟨b :: bs, by simp only [run, hb]; exact hbs⟩
  unfold execW at h
  split at h
  · simp at h
  · rename_i s hs
    obtain ⟨bs, hbs⟩ := hrun es _ w h
    exact ⟨bs, by simp only [exec, hs]; exact hbs⟩

/-- C3 at a run in which the call does not return: a pool of two threads, `SetThreadPoolSize(1)`.
Thread 0 has evaluated the condition of line 39 as `true` and has not yet called `wait` when
`StopThreads` stores `false` to the flag and calls `notify_all` (lines 89-90, made without
`m_jobsContainerMutex`); then thread 0 calls `wait` and sleeps, thread 1 returns. In the state
reached the controller is inside `clear()`, the registry still has two entries, and nothing
can happen but a `Push` call or a return of `wait` without notification: without one of them
the state stays as it is and the call never returns. When thread 0 is woken this way the call
returns with one thread in the registry. -/
theorem C3_shrink_blocks :
    execW 2 [WaitEvent.base (Event.work 0), WaitEvent.base (Event.resize 1),
        WaitEvent.base (Event.work 0), WaitEvent.base (Event.work 1),
        WaitEvent.base (Event.work 1)] = some shrinkBlocked ∧
    shrinkBlocked.sys.ctl = Ctl.stopping (some 1) ∧
    shrinkBlocked.sys.pool.GetThreadCount = 2 ∧
    (∀ e : WaitEvent Nat, e.internal = true → stepW shrinkBlocked e = none) ∧
    (∀ (es : List (WaitEvent Nat)) (w : WaitSys Nat), (∀ e ∈ es, e.internal = true) →
      runW shrinkBlocked es = some w → w = shrinkBlocked) ∧
    runW shrinkBlocked [WaitEvent.wakeup 0, WaitEvent.base (Event.work 0),
        WaitEvent.base (Event.work 0), WaitEvent.base Event.join] =
      some { sys := { pool := { m_threadContainer := [WorkerState.idle],
                                m_jobsContainer := [], m_poolActive := true },
                      ctl := Ctl.ready, pushed := [], claimed := [] },
             tested := none, asleep := [], notifying := 0 } ∧
    runW shrinkBlocked [WaitEvent.base (Event.push 4 40), WaitEvent.notifyOne (some 0),
        WaitEvent.base (Event.work 0), WaitEvent.base (Event.work 0),
        WaitEvent.base Event.join] =
      some { sys := { pool := { m_threadContainer := [WorkerState.idle],
                                m_jobsContainer := [(4, 40)], m_poolActive := true },
                      ctl := Ctl.ready, pushed := [(4, 40)], claimed := [] },
             tested := none, asleep := [], notifying := 0 } := by
  have hstuck : ∀ e : WaitEvent Nat, e.internal = true → stepW shrinkBlocked e = none := by
    intro e he
    cases e with
    | base b =>
      cases b with
      | push priority task => simp [WaitEvent.internal] at he
      | work i =>
        rcases i with _ | _ | i
        · rfl
        · rfl
        · simp [stepW, shrinkBlocked, step, Work]
      | resize n => rfl
      | destroy => rfl
      | join => rfl
    | notifyOne target => rfl
    | wakeup i => simp [WaitEvent.internal] at he
  refine ⟨by rfl, rfl, by rfl, hstuck, ?_, by rfl, by rfl⟩
  intro es w hes h
  cases es with
  | nil =>
    simp only [runW, Option.some.injEq] at h
    exact h.symm
  | cons e es =>
    have hnone := hstuck e (hes e (List.mem_cons_self _ _))
    simp [runW, hnone] at h

/-- C3 at the blocked state: the return of `clear()` cannot happen, while a return of `wait`
without notification can. -/
theorem C3_shrink_blocks_witness :
    stepW shrinkBlocked (WaitEvent.base Event.join) = none ∧
    stepW shrinkBlocked (WaitEvent.base (Event.work 0)) = none ∧
    stepW shrinkBlocked (WaitEvent.wakeup 0) ≠ none :=
  ⟨C3_shrink_blocks.2.2.2.1 (WaitEvent.base Event.join) (by rfl),
   C3_shrink_blocks.2.2.2.1 (WaitEvent.base (Event.work 0)) (by rfl),
   by decide⟩

/-- C4: `SetThreadPoolSize` returns `false` exactly when `newCount` is 0, and then the pool is
the same as before the call: same registry (hence same thread count), same queue, same flag. -/
theorem C4_resize_zero_rejected (p : DynamicThreadPool τ) (newCount : Nat) :
    ((p.SetThreadPoolSize newCount).2 = false ↔ newCount = 0) ∧
    p.SetThreadPoolSize 0 = (p, false) ∧
    (p.SetThreadPoolSize 0).1.GetThreadCount = p.GetThreadCount ∧
    (p.SetThreadPoolSize 0).1.m_jobsContainer = p.m_jobsContainer ∧
    (p.SetThreadPoolSize 0).1.m_poolActive = p.m_poolActive := by
  refine ⟨?_, rfl, rfl, rfl, rfl⟩
  unfold SetThreadPoolSize
  by_cases h0 : newCount = 0
  · simp [h0]
  · simp only [h0, if_false, iff_false]
    split
    · simp
    · split <;> simp

/-- C5: the constructor called with 0 throws `invalid_argument` with the members as they were
before the body: no thread, flag `false`, empty queue; called with a positive `unsigned int` (such as the default `kThreadCount`) it returns normally
with the flag `true`, `threadCount` threads at the head of `Work` and an empty queue. -/
theorem C5_constructor :
    (ctor 0 : DynamicThreadPool τ × Except Exn Unit) =
      (fresh, Except.error (Exn.invalid_argument "Thread count can not be 0")) ∧
    (fresh : DynamicThreadPool τ).m_threadContainer = [] ∧
    (fresh : DynamicThreadPool τ).m_poolActive = false ∧
    (fresh : DynamicThreadPool τ).m_jobsContainer = [] ∧
    (boot 0 : Option (Sys τ)) = none ∧
    (ctor kThreadCount : DynamicThreadPool τ × Except Exn Unit).2 = Except.ok () ∧
    ∀ threadCount : Nat, 0 < threadCount → threadCount < UINT_RANGE →
      ∃ p : DynamicThreadPool τ, ctor threadCount = (p, Except.ok ()) ∧
        p.m_poolActive = true ∧ p.GetThreadCount = threadCount ∧ p.m_jobsContainer = [] ∧
        p.m_threadContainer = List.replicate threadCount WorkerState.idle ∧
        p.GetPendingJobsCount = 0 := by
  refine ⟨rfl, rfl, rfl, rfl, rfl, rfl, ?_⟩
  intro n hpos hmax
  have h0 : n ≠ 0 := by omega
  refine ⟨StartThreads fresh n, by simp [ctor, h0], rfl, ?_, rfl, ?_, rfl⟩
  · simp only [GetThreadCount, StartThreads, fresh, spawnLoop_eq, List.nil_append,
      List.length_replicate]
    exact toUnsigned_of_lt hmax
  · simp only [StartThreads, fresh, spawnLoop_eq, List.nil_append]

/-- C5 with the default argument `kThreadCount = 5`. -/
theorem C5_constructor_witness :
    ∃ p : DynamicThreadPool Nat, ctor kThreadCount = (p, Except.ok ()) ∧
      p.m_poolActive = true ∧ p.GetThreadCount = kThreadCount ∧ p.m_jobsContainer = [] ∧
      p.m_threadContainer = List.replicate kThreadCount WorkerState.idle ∧
      p.GetPendingJobsCount = 0 :=
  C5_constructor.2.2.2.2.2.2 kThreadCount (by decide) (by decide)

theorem pushAll_length (p : DynamicThreadPool τ) (js : List (Job τ)) :
    (p.pushAll js).m_jobsContainer.length = p.m_jobsContainer.length + js.length := by
  induction js generalizing p with
  | nil => simp [pushAll]
  | cons e es ih =>
    have := ih (p.Push e.1 e.2)
    simp only [pushAll, List.foldl_cons] at this ⊢
    rw [this]
    simp only [Push, multimapInsert_length, List.length_cons]
    omega

/-- C6, as the code has it: after `N` `Push` calls on an empty queue and before any job is
taken the queue holds `N` jobs and `GetPendingJobsCount()` returns `N` cast to `unsigned int`,
which is `N` for every `N` below `2 ^ 32`. Every `Push` makes the queue one job longer, also
when its priority is already in the queue, and every job taken in `Work` makes it one job
shorter; the returned count moves by one with it, modulo `2 ^ 32`. -/
theorem C6_pending_count :
    (∀ (p : DynamicThreadPool τ) (js : List (Job τ)), p.m_jobsContainer = [] →
      (p.pushAll js).m_jobsContainer.length = js.length ∧
      (p.pushAll js).GetPendingJobsCount = js.length % UINT_RANGE ∧
      (js.length < UINT_RANGE → (p.pushAll js).GetPendingJobsCount = js.length)) ∧
    (∀ (p : DynamicThreadPool τ) (priority : Nat) (task : τ),
      (p.Push priority task).m_jobsContainer.length = p.m_jobsContainer.length + 1 ∧
      (p.Push priority task).GetPendingJobsCount = (p.GetPendingJobsCount + 1) % UINT_RANGE ∧
      (p.m_jobsContainer.length + 1 < UINT_RANGE →
        (p.Push priority task).GetPendingJobsCount = p.GetPendingJobsCount + 1)) ∧
    (∀ (p p' : DynamicThreadPool τ) (i : Nat) (e : Job τ), p.Work i = some (p', some e) →
      p'.m_jobsContainer.length + 1 = p.m_jobsContainer.length ∧
      (p'.GetPendingJobsCount + 1) % UINT_RANGE = p.GetPendingJobsCount ∧
      (p.m_jobsContainer.length < UINT_RANGE →
        p'.GetPendingJobsCount + 1 = p.GetPendingJobsCount)) := by
  refine ⟨?_, ?_, ?_⟩
  · intro p js hp
    have hlen : (p.pushAll js).m_jobsContainer.length = js.length := by
      rw [pushAll_length, hp]
      simp
    refine ⟨hlen, ?_, ?_⟩
    · simp only [GetPendingJobsCount, toUnsigned, hlen]
    · intro hlt
      simp only [GetPendingJobsCount, hlen]
      exact toUnsigned_of_lt hlt
  · intro p priority task
    have hlen : (p.Push priority task).m_jobsContainer.length = p.m_jobsContainer.length + 1 := by
      simp only [Push, multimapInsert_length]
    refine ⟨hlen, ?_, ?_⟩
    · simp only [GetPendingJobsCount, toUnsigned, hlen, UINT_RANGE]
      omega
    · intro hlt
      simp only [GetPendingJobsCount, toUnsigned, hlen, UINT_RANGE] at hlt ⊢
      omega
  · intro p p' i e hw
    rcases Work_cases hw with ⟨_, _, _, _, _, hc⟩ | ⟨_, _, _, _, hc⟩ | ⟨_, _, _, hc⟩ |
      ⟨_, _, e', rest, hj, hp', _⟩ | ⟨_, _, _, _, hc⟩ | ⟨_, _, _, _, hc⟩
    · simp at hc
    · simp at hc
    · simp at hc
    · subst hp'
      simp only [GetPendingJobsCount, toUnsigned, hj, List.length_cons, UINT_RANGE]
      refine ⟨trivial, ?_, ?_⟩
      · omega
      · intro hlt
        omega
    · simp at hc
    · simp at hc

/-- C6 on a pool of one thread and three pushes, two of them with the same priority, followed
by the two steps in which the thread takes the first job. -/
theorem C6_pending_count_witness :
    ((fresh : DynamicThreadPool Nat).pushAll [(4, 1), (4, 2), (9, 3)]).GetPendingJobsCount = 3 ∧
    (({ m_threadContainer := [WorkerState.running 1], m_jobsContainer := [(4, 2), (9, 3)],
        m_poolActive := true } : DynamicThreadPool Nat).GetPendingJobsCount + 1 =
      ({ m_threadContainer := [WorkerState.awake], m_jobsContainer := [(4, 1), (4, 2), (9, 3)],
         m_poolActive := true } : DynamicThreadPool Nat).GetPendingJobsCount) :=
  ⟨(C6_pending_count.1 fresh [(4, 1), (4, 2), (9, 3)] (by rfl)).2.2 (by decide),
   (C6_pending_count.2.2
      { m_threadContainer := [WorkerState.awake], m_jobsContainer := [(4, 1), (4, 2), (9, 3)],
        m_poolActive := true }
      { m_threadContainer := [WorkerState.running 1], m_jobsContainer := [(4, 2), (9, 3)],
        m_poolActive := true } 0 (4, 1) (by rfl)).2.2 (by decide)⟩

/-- C6 as stated fails for `N = 2 ^ 32`: after `4294967296` `Push` calls on the empty queue of
a new pool the queue holds `4294967296` jobs, and the cast in `GetPendingJobsCount` gives 0. -/
theorem C6_pending_count_counterexample :
    (((ctor 1).1 : DynamicThreadPool Unit).pushAll
        (List.replicate 4294967296 (0, ()))).m_jobsContainer.length = 4294967296 ∧
    (((ctor 1).1 : DynamicThreadPool Unit).pushAll
        (List.replicate 4294967296 (0, ()))).GetPendingJobsCount = 0 ∧
    (((ctor 1).1 : DynamicThreadPool Unit).pushAll
        (List.replicate 4294967296 (0, ()))).GetPendingJobsCount ≠ 4294967296 := by
  have hlen : (((ctor 1).1 : DynamicThreadPool Unit).pushAll
      (List.replicate 4294967296 (0, ()))).m_jobsContainer.length = 4294967296 := by
    rw [pushAll_length, List.length_replicate]
    rfl
  have hcount : (((ctor 1).1 : DynamicThreadPool Unit).pushAll
      (List.replicate 4294967296 (0, ()))).GetPendingJobsCount = 0 := by
    rw [GetPendingJobsCount, hlen]
    rfl
  refine ⟨hlen, hcount, ?_⟩
  rw [hcount]
  exact Nat.zero_ne_add_one _

theorem step_controller_frame {s s' : Sys τ} {e : Event τ}
    (he : e = Event.destroy ∨ e = Event.join ∨ ∃ newCount, e = Event.resize newCount)
    (h : step s e = some s') :
    s'.pool.m_jobsContainer = s.pool.m_jobsContainer ∧ s'.pushed = s.pushed ∧
      s'.claimed = s.claimed := by
  rcases he with rfl | rfl | ⟨n, rfl⟩
  · simp only [step] at h
    split at h
    · simp only [Option.some.injEq] at h
      subst h
      exact ⟨rfl, rfl, rfl⟩
    · simp at h
  · simp only [step] at h
    split at h
    · split at h
      · split at h <;>
        · simp only [Option.some.injEq] at h
          subst h
          exact ⟨rfl, rfl, rfl⟩
      · simp at h
    · simp at h
  · simp only [step] at h
    split at h
    · split at h
      · simp at h
      · split at h
        · simp only [Option.some.injEq] at h
          subst h
          exact ⟨rfl, rfl, rfl⟩
        · split at h
          · simp only [Option.some.injEq] at h
            subst h
            exact ⟨rfl, rfl, rfl⟩
          · split at h <;>
            · simp only [Option.some.injEq] at h
              subst h
              exact ⟨rfl, rfl, rfl⟩
    · simp at h

/-- C7: `StopThreads`, `StartThreads` and `SetThreadPoolSize` (growing, shrinking, equal count
and the rejected count 0) leave `m_jobsContainer` as it is, contents and order; the same holds
for every step the controller takes in the interleaving semantics. -/
theorem C7_controller_keeps_queue :
    (∀ p : DynamicThreadPool τ, p.StopThreads.m_jobsContainer = p.m_jobsContainer) ∧
    (∀ (p : DynamicThreadPool τ) (threadsToStart : Nat),
      (p.StartThreads threadsToStart).m_jobsContainer = p.m_jobsContainer) ∧
    (∀ (p : DynamicThreadPool τ) (newCount : Nat),
      (p.SetThreadPoolSize newCount).1.m_jobsContainer = p.m_jobsContainer) ∧
    (∀ (s s' : Sys τ) (e : Event τ),
      (e = Event.destroy ∨ e = Event.join ∨ ∃ newCount, e = Event.resize newCount) →
      step s e = some s' →
      s'.pool.m_jobsContainer = s.pool.m_jobsContainer ∧ s'.pushed = s.pushed ∧
        s'.claimed = s.claimed) := by
  refine ⟨fun _ => rfl, fun _ _ => rfl, ?_, ?_⟩
  · intro p n
    unfold SetThreadPoolSize
    split
    · rfl
    · simp only
      split
      · rfl
      · split <;> rfl
  · intro s s' e he h
    exact step_controller_frame he h

/-- C7 on a pool of two threads with two queued jobs that is shrunk to one thread. -/
theorem C7_controller_keeps_queue_witness :
    (exec 2 [Event.push 3 30, Event.push 1 10, Event.resize 1]).map
        (fun s => s.pool.m_jobsContainer) = some [(1, 10), (3, 30)] ∧
    ({ pool := { m_threadContainer := [WorkerState.idle, WorkerState.idle],
                 m_jobsContainer := [((1 : Nat), (10 : Nat)), (3, 30)], m_poolActive := false },
       ctl := Ctl.stopping (some 1), pushed := [(3, 30), (1, 10)],
       claimed := [] } : Sys Nat).pool.m_jobsContainer = [(1, 10), (3, 30)] :=
  ⟨by rfl,
   (C7_controller_keeps_queue.2.2.2
      { pool := { m_threadContainer := [WorkerState.idle, WorkerState.idle],
                  m_jobsContainer := [(1, 10), (3, 30)], m_poolActive := true },
        ctl := Ctl.ready, pushed := [(3, 30), (1, 10)], claimed := [] }
      { pool := { m_threadContainer := [WorkerState.idle, WorkerState.idle],
                  m_jobsContainer := [(1, 10), (3, 30)], m_poolActive := false },
        ctl := Ctl.stopping (some 1), pushed := [(3, 30), (1, 10)], claimed := [] }
      (Event.resize 1) (Or.inr (Or.inr ⟨1, rfl⟩)) (by rfl)).1⟩

theorem sublist_multimapInsert (e : Job τ) (l : List (Job τ)) :
    l.Sublist (multimapInsert e l) := by
  induction l with
  | nil => simp
  | cons x xs ih =>
    unfold multimapInsert
    split
    · exact List.sublist_cons_self _ _
    · exact List.Sublist.cons₂ _ ih

/-- What one step does to the queue and to the list of jobs taken: either thread `i` takes the
head of the queue and starts to run it, or nothing is taken and no job leaves the queue. -/
theorem step_takes_or_keeps {s s' : Sys τ} {e : Event τ} (h : step s e = some s') :
    (∃ i job, e = Event.work i ∧
        s.pool.m_jobsContainer = job :: s'.pool.m_jobsContainer ∧
        s'.claimed = s.claimed ++ [(i, job)] ∧
        s.pool.m_threadContainer[i]? = some WorkerState.awake ∧
        s'.pool.m_threadContainer =
          s.pool.m_threadContainer.set i (WorkerState.running job.2)) ∨
    (s'.claimed = s.claimed ∧ s.pool.m_jobsContainer.Sublist s'.pool.m_jobsContainer) := by
  cases e with
  | push priority task =>
    right
    simp only [step] at h
    split at h
    · simp at h
    · split at h
      · simp at h
      · simp only [Option.some.injEq] at h
        subst h
        exact ⟨rfl, sublist_multimapInsert _ _⟩
  | work i =>
    obtain ⟨_, p, c, hw, rfl⟩ := step_work h
    rcases Work_cases hw with ⟨_, _, _, _, rfl, rfl⟩ | ⟨_, _, _, rfl, rfl⟩ |
      ⟨_, _, rfl, rfl⟩ | ⟨h0, _, job, rest, hj, rfl, rfl⟩ | ⟨_, _, _, rfl, rfl⟩ |
      ⟨_, _, _, rfl, rfl⟩
    · exact Or.inr ⟨rfl, List.Sublist.refl _⟩
    · exact Or.inr ⟨rfl, List.Sublist.refl _⟩
    · exact Or.inr ⟨rfl, List.Sublist.refl _⟩
    · exact Or.inl ⟨i, job, rfl, hj, rfl, h0, rfl⟩
    · exact Or.inr ⟨rfl, List.Sublist.refl _⟩
    · exact Or.inr ⟨rfl, List.Sublist.refl _⟩
  | resize n =>
    obtain ⟨hj, _, hc⟩ := step_controller_frame (Or.inr (Or.inr ⟨n, rfl⟩)) h
    exact Or.inr ⟨hc, hj ▸ List.Sublist.refl _⟩
  | destroy =>
    obtain ⟨hj, _, hc⟩ := step_controller_frame (Or.inl rfl) h
    exact Or.inr ⟨hc, hj ▸ List.Sublist.refl _⟩
  | join =>
    obtain ⟨hj, _, hc⟩ := step_controller_frame (Or.inr (Or.inl rfl)) h
    exact Or.inr ⟨hc, hj ▸ List.Sublist.refl _⟩

/-- C8: in every reachable state the jobs pushed so far are, counted with multiplicity, the jobs
taken by workers together with the jobs still queued, so each pushed job is either pending or
taken, not both and not twice (when the pushed jobs are pairwise different, the taken and the
queued jobs together have no repetition). Every step either takes exactly the head of the queue
for exactly one thread, which starts to run it while all other threads stay where they are, or
takes nothing and removes no job from the queue. -/
theorem C8_claimed_exactly_once :
    (∀ (n : Nat) (es : List (Event τ)) (s : Sys τ), exec n es = some s →
      s.pushed.Perm (claimedJobs s ++ s.pool.m_jobsContainer) ∧
      (s.pushed.Nodup → (claimedJobs s ++ s.pool.m_jobsContainer).Nodup)) ∧
    (∀ (s s' : Sys τ) (e : Event τ), step s e = some s' →
      (∃ i job, e = Event.work i ∧
          s.pool.m_jobsContainer = job :: s'.pool.m_jobsContainer ∧
          s'.claimed = s.claimed ++ [(i, job)] ∧
          s.pool.m_threadContainer[i]? = some WorkerState.awake ∧
          s'.pool.m_threadContainer =
            s.pool.m_threadContainer.set i (WorkerState.running job.2)) ∨
      (s'.claimed = s.claimed ∧ s.pool.m_jobsContainer.Sublist s'.pool.m_jobsContainer)) := by
  refine ⟨?_, fun s s' e h => step_takes_or_keeps h⟩
  intro n es s h
  have hp := (Inv_exec h).perm
  exact ⟨hp, fun hn => hp.nodup_iff.mp hn⟩

/-- C8 on a run of two threads: three jobs are pushed, thread 1 takes the job of priority 1 and
thread 0 the job of priority 2; the job of priority 3 is still queued. -/
theorem C8_claimed_exactly_once_witness :
    exec 2 [Event.push 3 30, Event.push 1 10, Event.push 2 20, Event.work 1, Event.work 1,
        Event.work 0, Event.work 0] =
      some { pool := { m_threadContainer := [WorkerState.running 20, WorkerState.running 10],
                       m_jobsContainer := [(3, 30)], m_poolActive := true },
             ctl := Ctl.ready, pushed := [(3, 30), (1, 10), (2, 20)],
             claimed := [(1, (1, 10)), (0, (2, 20))] } ∧
    [((3 : Nat), (30 : Nat)), (1, 10), (2, 20)].Perm ([(1, 10), (2, 20)] ++ [(3, 30)]) ∧
    ([((1 : Nat), (10 : Nat)), (2, 20)] ++ [(3, 30)]).Nodup :=
  ⟨by rfl,
   (C8_claimed_exactly_once.1 2
      [Event.push 3 30, Event.push 1 10, Event.push 2 20, Event.work 1, Event.work 1,
        Event.work 0, Event.work 0]
      { pool := { m_threadContainer := [WorkerState.running 20, WorkerState.running 10],
                  m_jobsContainer := [(3, 30)], m_poolActive := true },
        ctl := Ctl.ready, pushed := [(3, 30), (1, 10), (2, 20)],
        claimed := [(1, (1, 10)), (0, (2, 20))] } (by rfl)).1,
   (C8_claimed_exactly_once.1 2
      [Event.push 3 30, Event.push 1 10, Event.push 2 20, Event.work 1, Event.work 1,
        Event.work 0, Event.work 0]
      { pool := { m_threadContainer := [WorkerState.running 20, WorkerState.running 10],
                  m_jobsContainer := [(3, 30)], m_poolActive := true },
        ctl := Ctl.ready, pushed := [(3, 30), (1, 10), (2, 20)],
        claimed := [(1, (1, 10)), (0, (2, 20))] } (by rfl)).2 (by decide)⟩

theorem getElem?_lt_length {α : Type} {l : List α} {i : Nat} {a : α} (h : l[i]? = some a) :
    i < l.length := by
  by_contra hn
  rw [List.getElem?_eq_none (by omega)] at h
  simp at h

theorem mem_of_getElem?_eq {α : Type} {l : List α} {i : Nat} {a : α} (h : l[i]? = some a) :
    a ∈ l := by
  have hl := getElem?_lt_length h
  rw [List.getElem?_eq_getElem hl] at h
  simp only [Option.some.injEq] at h
  exact h ▸ List.getElem_mem hl

/-- C9: with the flag `false`, a thread that has left the wait loop or has just finished its
task returns from `Work` in its next step; a thread that waits idle leaves the wait loop as
soon as it gets the mutex and returns in the step after; in neither step a job is taken or the
queue changed, and a thread that has returned never moves again. A job is taken only in a step
that reads the flag as `true` and finds the queue non-empty, and in every reachable state a
thread that has left the wait loop with the flag `true` does find a job to take. -/
theorem C9_no_claim_when_inactive :
    (∀ (p : DynamicThreadPool τ) (i : Nat) (w : WorkerState τ), p.m_poolActive = false →
      p.m_threadContainer[i]? = some w → (w = WorkerState.awake ∨ ∃ t, w = WorkerState.running t) →
      p.Work i = some (p.setWorker i WorkerState.terminated, none)) ∧
    (∀ (p : DynamicThreadPool τ) (i : Nat), p.m_poolActive = false →
      p.m_threadContainer[i]? = some WorkerState.idle → p.jobsLocked = false →
      p.Work i = some (p.setWorker i WorkerState.awake, none) ∧
      (p.setWorker i WorkerState.awake).Work i =
        some (p.setWorker i WorkerState.terminated, none)) ∧
    (∀ (p p' : DynamicThreadPool τ) (i : Nat) (c : Option (Job τ)), p.m_poolActive = false →
      p.Work i = some (p', c) →
      c = none ∧ p'.m_jobsContainer = p.m_jobsContainer ∧ p'.m_poolActive = false) ∧
    (∀ (p : DynamicThreadPool τ) (i : Nat),
      p.m_threadContainer[i]? = some WorkerState.terminated → p.Work i = none) ∧
    (∀ (p p' : DynamicThreadPool τ) (i : Nat) (e : Job τ), p.Work i = some (p', some e) →
      p.m_poolActive = true ∧ p.m_jobsContainer ≠ [] ∧
        p.m_threadContainer[i]? = some WorkerState.awake) ∧
    (∀ (n : Nat) (es : List (Event τ)) (s : Sys τ) (i : Nat), exec n es = some s →
      s.pool.m_threadContainer[i]? = some WorkerState.awake → s.pool.m_poolActive = true →
      ∃ p' e, s.pool.Work i = some (p', some e)) := by
  refine ⟨?_, ?_, ?_, ?_, ?_, ?_⟩
  · intro p i w ha h0 hw
    rcases hw with rfl | ⟨t, rfl⟩
    · simp [Work, h0, ha]
    · simp [Work, h0, ha]
  · intro p i ha h0 hl
    have hlen := getElem?_lt_length h0
    refine ⟨by simp [Work, h0, ha, hl], ?_⟩
    simp [Work, setWorker, ha, hlen, List.getElem?_set_self]
  · intro p p' i c ha hw
    rcases Work_cases hw with ⟨_, _, _, _, rfl, rfl⟩ | ⟨_, _, _, rfl, rfl⟩ |
      ⟨_, _, rfl, rfl⟩ | ⟨_, ht, _⟩ | ⟨_, _, _, rfl, rfl⟩ | ⟨_, _, _, rfl, rfl⟩
    · exact ⟨rfl, rfl, ha⟩
    · exact ⟨rfl, rfl, ha⟩
    · exact ⟨rfl, rfl, ha⟩
    · rw [ha] at ht
      simp at ht
    · exact ⟨rfl, rfl, ha⟩
    · exact ⟨rfl, rfl, ha⟩
  · intro p i h0
    simp [Work, h0]
  · intro p p' i e hw
    rcases Work_cases hw with ⟨_, _, _, _, _, hc⟩ | ⟨_, _, _, _, hc⟩ | ⟨_, _, _, hc⟩ |
      ⟨h0, ha, e', rest, hj, _, _⟩ | ⟨_, _, _, _, hc⟩ | ⟨_, _, _, _, hc⟩
    · simp at hc
    · simp at hc
    · simp at hc
    · exact ⟨ha, by simp [hj], h0⟩
    · simp at hc
    · simp at hc
  · intro n es s i hex h0 ha
    have hI := Inv_exec hex
    have hl : s.pool.jobsLocked = true := by
      unfold jobsLocked
      rw [List.any_eq_true]
      exact ⟨_, mem_of_getElem?_eq h0, rfl⟩
    have hne := hI.awake_nonempty hl ha
    cases hj : s.pool.m_jobsContainer with
    | nil => exact absurd hj hne
    | cons e rest =>
      exact ⟨{ s.pool with
                m_jobsContainer := rest
                m_threadContainer := s.pool.m_threadContainer.set i (WorkerState.running e.2) },
        e, by simp [Work, h0, ha, hj]⟩

/-- C9 on a pool of two threads with one job queued while thread 0 runs another one: the shrink
to one thread clears the flag; thread 1, idle, leaves the wait loop and returns, thread 0
finishes its task and returns; the queued job stays in the queue. -/
theorem C9_no_claim_when_inactive_witness :
    exec 2 [Event.push 1 10, Event.work 0, Event.work 0, Event.push 2 20, Event.resize 1] =
      some { pool := { m_threadContainer := [WorkerState.running 10, WorkerState.idle],
                       m_jobsContainer := [(2, 20)], m_poolActive := false },
             ctl := Ctl.stopping (some 1), pushed := [(1, 10), (2, 20)],
             claimed := [(0, (1, 10))] } ∧
    ({ m_threadContainer := [WorkerState.running 10, WorkerState.idle],
       m_jobsContainer := [(2, 20)], m_poolActive := false } : DynamicThreadPool Nat).Work 0 =
      some ({ m_threadContainer := [WorkerState.terminated, WorkerState.idle],
              m_jobsContainer := [(2, 20)], m_poolActive := false }, none) ∧
    ({ m_threadContainer := [WorkerState.running 10, WorkerState.awake],
       m_jobsContainer := [(2, 20)], m_poolActive := false } : DynamicThreadPool Nat).Work 1 =
      some ({ m_threadContainer := [WorkerState.running 10, WorkerState.terminated],
              m_jobsContainer := [(2, 20)], m_poolActive := false }, none) :=
  ⟨by rfl,
   C9_no_claim_when_inactive.1
     { m_threadContainer := [WorkerState.running 10, WorkerState.idle],
       m_jobsContainer := [(2, 20)], m_poolActive := false } 0 (WorkerState.running 10)
     (by rfl) (by rfl) (Or.inr ⟨10, rfl⟩),
   (C9_no_claim_when_inactive.2.1
     { m_threadContainer := [WorkerState.running 10, WorkerState.idle],
       m_jobsContainer := [(2, 20)], m_poolActive := false } 1 (by rfl) (by rfl) (by rfl)).2⟩

theorem aliveCount_add_terminated (p : DynamicThreadPool τ) :
    p.aliveCount + p.m_threadContainer.countP WorkerState.isTerminated =
      p.m_threadContainer.length := by
  unfold aliveCount
  induction p.m_threadContainer with
  | nil => simp
  | cons w ws ih =>
    simp only [List.countP_cons, List.length_cons]
    cases hw : w.isTerminated <;> simp <;> omega

/-- C10, as the code has it: in every reachable state `GetThreadCount()` is the number of
threads of the registry, which are the threads still alive and the threads that have returned
from `Work` but are not yet joined; while the flag is `true` no thread of the registry has
returned, so `GetThreadCount()` is then the number of threads alive. `StartThreads` adds
`threadsToStart` new live threads behind the existing ones, a thread returns from `Work` only in
a step that reads the flag as `false`, `StopThreads` leaves an empty registry, and `clear()`
returns only when no thread of the registry is alive. -/
theorem C10_thread_count :
    (∀ (n : Nat) (es : List (Event τ)) (s : Sys τ), exec n es = some s →
      s.pool.GetThreadCount =
        s.pool.aliveCount + s.pool.m_threadContainer.countP WorkerState.isTerminated ∧
      (s.pool.m_poolActive = true → s.pool.GetThreadCount = s.pool.aliveCount)) ∧
    (∀ (p : DynamicThreadPool τ) (threadsToStart : Nat),
      (p.StartThreads threadsToStart).m_threadContainer =
        p.m_threadContainer ++ List.replicate threadsToStart WorkerState.idle ∧
      (p.StartThreads threadsToStart).aliveCount = p.aliveCount + threadsToStart) ∧
    (∀ (p p' : DynamicThreadPool τ) (i : Nat) (c : Option (Job τ)), p.Work i = some (p', c) →
      p'.m_threadContainer.length = p.m_threadContainer.length ∧
      (p'.m_threadContainer[i]? = some WorkerState.terminated → p.m_poolActive = false)) ∧
    (∀ p : DynamicThreadPool τ,
      p.StopThreads.m_threadContainer = [] ∧ p.StopThreads.GetThreadCount = 0) ∧
    (∀ s s' : Sys τ, step s Event.join = some s' → s.pool.aliveCount = 0) := by
  refine ⟨?_, ?_, ?_, ?_, ?_⟩
  · intro n es s hex
    have hI := Inv_exec hex
    have hsum := aliveCount_add_terminated s.pool
    have hcount : s.pool.GetThreadCount = s.pool.m_threadContainer.length :=
      toUnsigned_of_lt hI.size_bound
    refine ⟨by omega, ?_⟩
    intro ha
    have := hI.active_alive ha
    omega
  · intro p k
    refine ⟨by simp only [StartThreads, spawnLoop_eq], ?_⟩
    simp [aliveCount, StartThreads, spawnLoop_eq, List.countP_replicate,
      WorkerState.isTerminated]
  · intro p p' i c hw
    rcases Work_cases hw with ⟨_, _, ha, _, rfl, rfl⟩ | ⟨h0, _, _, rfl, rfl⟩ |
      ⟨_, ha, rfl, rfl⟩ | ⟨h0, _, e, rest, _, rfl, rfl⟩ | ⟨_, _, ha, rfl, rfl⟩ |
      ⟨_, h0, _, rfl, rfl⟩
    · refine ⟨rfl, ?_⟩
      intro ht
      rename_i hidle _ _
      rw [hidle] at ht
      simp at ht
    · refine ⟨by simp [setWorker], ?_⟩
      intro ht
      have hlen := getElem?_lt_length h0
      simp [setWorker, hlen, List.getElem?_set_self] at ht
    · exact ⟨by simp [setWorker], fun _ => ha⟩
    · refine ⟨by simp, ?_⟩
      intro ht
      have hlen := getElem?_lt_length h0
      simp [hlen, List.getElem?_set_self] at ht
    · exact ⟨by simp [setWorker], fun _ => ha⟩
    · refine ⟨by simp [setWorker], ?_⟩
      intro ht
      have hlen := getElem?_lt_length h0
      simp [setWorker, hlen, List.getElem?_set_self] at ht
  · intro p
    exact ⟨rfl, rfl⟩
  · intro s s' h
    simp only [step] at h
    split at h
    · split at h
      · rename_i hall
        unfold aliveCount
        rw [List.countP_eq_zero]
        intro w hw
        have := List.all_eq_true.mp hall w hw
        simp [this]
      · simp at h
    · simp at h

/-- C10 on a pool of two threads, before and after it is grown to three. -/
theorem C10_thread_count_witness :
    exec 2 [Event.push 1 10, Event.work 0, Event.work 0, Event.resize 3] =
      some { pool := { m_threadContainer :=
                         [WorkerState.running 10, WorkerState.idle, WorkerState.idle],
                       m_jobsContainer := [], m_poolActive := true },
             ctl := Ctl.ready, pushed := [(1, 10)], claimed := [(0, (1, 10))] } ∧
    ({ m_threadContainer := [WorkerState.running 10, WorkerState.idle, WorkerState.idle],
       m_jobsContainer := [], m_poolActive := true } : DynamicThreadPool Nat).GetThreadCount =
    ({ m_threadContainer := [WorkerState.running 10, WorkerState.idle, WorkerState.idle],
       m_jobsContainer := [], m_poolActive := true } : DynamicThreadPool Nat).aliveCount :=
  ⟨by rfl,
   (C10_thread_count.1 2 [Event.push 1 10, Event.work 0, Event.work 0, Event.resize 3]
      { pool := { m_threadContainer :=
                    [WorkerState.running 10, WorkerState.idle, WorkerState.idle],
                  m_jobsContainer := [], m_poolActive := true },
        ctl := Ctl.ready, pushed := [(1, 10)], claimed := [(0, (1, 10))] } (by rfl)).2 (by rfl)⟩

/-- C10 as stated fails while a stop is under way: a pool of two threads is shrunk to one;
`StopThreads` has cleared the flag and thread 0 has returned from `Work`, but `clear()` has not
run yet, so the registry still has two entries while one thread is alive. -/
theorem C10_thread_count_counterexample :
    exec 2 [Event.resize 1, Event.work 0, Event.work 0] =
      some ({ pool := { m_threadContainer := [WorkerState.terminated, WorkerState.idle],
                        m_jobsContainer := [], m_poolActive := false },
              ctl := Ctl.stopping (some 1), pushed := [], claimed := [] } : Sys Nat) ∧
    ({ m_threadContainer := [WorkerState.terminated, WorkerState.idle],
       m_jobsContainer := [], m_poolActive := false } : DynamicThreadPool Nat).GetThreadCount = 2 ∧
    ({ m_threadContainer := [WorkerState.terminated, WorkerState.idle],
       m_jobsContainer := [], m_poolActive := false } : DynamicThreadPool Nat).aliveCount = 1 ∧
    ({ m_threadContainer := [WorkerState.terminated, WorkerState.idle],
       m_jobsContainer := [], m_poolActive := false } : DynamicThreadPool Nat).GetThreadCount ≠
    ({ m_threadContainer := [WorkerState.terminated, WorkerState.idle],
       m_jobsContainer := [], m_poolActive := false } : DynamicThreadPool Nat).aliveCount := by
  refine ⟨by rfl, by rfl, by rfl, by decide⟩

end DTP
